import Mathlib

/-!
# Pixel art editor: raster, grid and flood fill

A shallow embedding of `src/script.js` (class `PixelArtEditor`).

* The canvas bitmap is a function from integer raster coordinates to RGBA
  pixels; only the coordinates in `[0,512) x [0,512)` belong to the bitmap.
* The editor object is a record that every method takes and returns.
* `confirm(...)` dialogs, the text of the name input and the clock are
  arguments of the handlers that read them.
* The `while` loop of `floodFill` is a fuelled recursion that stops as soon
  as the stack is empty; the fuel used by `floodFill` is shown sufficient.
-/

namespace PixelArtEditor

/-! ## Colours and pixels -/

/-- One byte of a colour channel. -/
abbrev Channel := Fin 256

/-- An RGBA pixel of the canvas bitmap, as read by `getImageData(...).data`. -/
structure Pixel where
  r : Channel
  g : Channel
  b : Channel
  a : Channel
deriving DecidableEq, Repr

/-- The colour strings that occur in the editor. `hex r g b` is the seven
character literal `#rrggbb` (palette defaults, the value of the colour input,
the eraser's `'#ffffff'`); `rgb r g b` is the string built by `getPixelColor`
with the template `rgb(r, g, b)`. Equality of `ColorStr` is string equality
(`===`): a `#rrggbb` string and an `rgb(...)` string are never equal. -/
inductive ColorStr where
  | hex (r g b : Channel)
  | rgb (r g b : Channel)
deriving DecidableEq, Repr

/-- The red, green and blue channels a colour string denotes. -/
def ColorStr.channels : ColorStr → Channel × Channel × Channel
  | .hex r g b => (r, g, b)
  | .rgb r g b => (r, g, b)

/-- The pixel written by a fill whose `fillStyle` is the given colour string:
both string shapes denote opaque colours. -/
def ColorStr.toPixel (c : ColorStr) : Pixel :=
  { r := c.channels.1, g := c.channels.2.1, b := c.channels.2.2, a := 255 }

/-- The pixel of a cleared bitmap, also what `getImageData` reports outside
the bitmap. -/
def transparentBlack : Pixel := { r := 0, g := 0, b := 0, a := 0 }

/-- The literal `'#ffffff'`. -/
def white : ColorStr := .hex 255 255 255

/-! ## The raster -/

/-- The canvas bitmap. Only coordinates inside `[0,512) x [0,512)` are part
of it (`canvas.width = canvas.height = 512`). -/
abbrev Raster := Int → Int → Pixel

/-- Membership of a raster coordinate in the 512 x 512 bitmap. -/
def inCanvas (px py : Int) : Prop := 0 ≤ px ∧ px < 512 ∧ 0 ≤ py ∧ py < 512

instance (px py : Int) : Decidable (inCanvas px py) := by
  unfold inCanvas; infer_instance

/-- Two rasters agree on every pixel of the bitmap. -/
def SameRaster (r₁ r₂ : Raster) : Prop :=
  ∀ px py, inCanvas px py → r₁ px py = r₂ px py

/-- The call `ctx.getImageData(x, y, 1, 1).data`: the pixel at `(x, y)`, and
transparent black when `(x, y)` lies outside the bitmap. -/
def getImageData (r : Raster) (x y : Int) : Pixel :=
  if inCanvas x y then r x y else transparentBlack

/-- The call `ctx.fillRect(x, y, w, h)` with an opaque `fillStyle`: every
bitmap pixel of `[x, x+w) x [y, y+h)` becomes `c`, all others are kept. -/
def fillRect (r : Raster) (x y w h : Int) (c : Pixel) : Raster :=
  fun px py =>
    if inCanvas px py ∧ x ≤ px ∧ px < x + w ∧ y ≤ py ∧ py < y + h then c else r px py

/-- The call `ctx.clearRect(x, y, w, h)`: the pixels of the rectangle become
transparent black. -/
def clearRect (r : Raster) (x y w h : Int) : Raster :=
  fillRect r x y w h transparentBlack

/-- Source-over compositing of an image pixel onto a bitmap pixel, the
default `globalCompositeOperation`. An opaque source replaces the
destination, and a source drawn on a fully transparent destination is kept.
Between two partially transparent pixels the channels are mixed by alpha; the
rounding of that mix is left to the browser, integer division stands for it
here, and no statement below depends on it. -/
def sourceOver (src dst : Pixel) : Pixel :=
  if src.a = 255 ∨ dst.a = 0 then src
  else
    let sa := src.a.val
    let da := dst.a.val * (255 - sa) / 255
    let oa := sa + da
    let mix (s d : Channel) : Channel :=
      if oa = 0 then 0 else Fin.ofNat ((s.val * sa + d.val * da) / oa)
    { r := mix src.r dst.r, g := mix src.g dst.g, b := mix src.b dst.b, a := Fin.ofNat oa }

/-- The call `ctx.drawImage(img, 0, 0)` for a decoded 512 x 512 image. -/
def drawImage (r : Raster) (img : Raster) : Raster :=
  fun px py => if inCanvas px py then sourceOver (img px py) (r px py) else r px py

/-! ## The editor object -/

/-- The value of `currentTool` (`data-tool` of the tool buttons). -/
inductive Tool where
  | pencil
  | eraser
  | fill
deriving DecidableEq, Repr

/-- A stored artwork record `{imageData, gridSize, savedAt}`. `imageData` is
the PNG data URL of the canvas; PNG being lossless, the record carries the
encoded bitmap itself. -/
structure Artwork where
  imageData : Raster
  gridSize : Nat
  savedAt : String

/-- What a property read `this.savedArtworks[name]` yields: a stored record
(an object, truthy), a value that is no record (an inherited function, string
or number, with its truthiness), or `undefined`. -/
inductive Slot where
  | record (artwork : Artwork)
  | other (truthy : Bool)
  | undefined

/-- Truthiness of the value read, as tested by `if (this.savedArtworks[name])`. -/
def Slot.truthy : Slot → Bool
  | .record _ => true
  | .other t => t
  | .undefined => false

/-- The names of the function-valued properties of `Object.prototype`, which
every plain object inherits. The accessor `__proto__` is treated apart. -/
def objectPrototypeNames : List String :=
  ["constructor", "hasOwnProperty", "isPrototypeOf", "propertyIsEnumerable",
    "toLocaleString", "toString", "valueOf", "__defineGetter__", "__defineSetter__",
    "__lookupGetter__", "__lookupSetter__"]

/-- The plain object `this.savedArtworks`. `own` holds its own properties, all
of them records. `proto` is the record installed as its prototype by an
assignment to the key `__proto__`, and `none` while the prototype is still
`Object.prototype`. -/
structure ArtworkStore where
  own : String → Option Artwork
  proto : Option Artwork

/-- The property read `this.savedArtworks[name]`. An own property wins. Failing
that the prototype chain is searched: the key `__proto__` reads the prototype
itself (a record once one has been installed, `Object.prototype` before); a
record installed as prototype lends its three fields, of which the data URL is
a non-empty string, the grid size a number and the date a string; the
function-valued properties of `Object.prototype` are always inherited. -/
def ArtworkStore.get (st : ArtworkStore) (name : String) : Slot :=
  match st.own name with
  | some artwork => .record artwork
  | none =>
    match st.proto with
    | some installed =>
      if name = "__proto__" then .record installed
      else if name = "imageData" then .other true
      else if name = "gridSize" then .other (installed.gridSize != 0)
      else if name = "savedAt" then .other (installed.savedAt != "")
      else if name ∈ objectPrototypeNames then .other true
      else .undefined
    | none =>
      if name = "__proto__" ∨ name ∈ objectPrototypeNames then .other true else .undefined

/-- The assignment `this.savedArtworks[name] = artwork`. It creates or
replaces an own property, except for the key `__proto__` when the object has
no own property of that name: the inherited setter then makes the record the
prototype of the object. -/
def ArtworkStore.set (st : ArtworkStore) (name : String) (artwork : Artwork) : ArtworkStore :=
  if name = "__proto__" ∧ (st.own name).isNone = true then
    { st with proto := some artwork }
  else
    { st with own := fun n => if n = name then some artwork else st.own n }

/-- A call of one of the two painting methods, with its arguments. -/
inductive Call where
  | drawPixel (x y : Int) (color : ColorStr)
  | floodFill (startX startY : Int) (newColor : ColorStr)
deriving DecidableEq, Repr

/-- The fields of a `PixelArtEditor` instance. `canvas` is the bitmap behind
`this.ctx`; `hasFilled` starts out `undefined`, which is falsy, and is
`false` here; `savedArtworks` is the plain object of records. `calls` is a log,
not a field of the source: `drawPixel` and `floodFill` append their call to
it on entry, so that statements about which calls were made can be written. -/
structure Editor where
  canvas : Raster
  currentTool : Tool
  currentColor : ColorStr
  gridSize : Nat
  pixelSize : Nat
  isDrawing : Bool
  hasFilled : Bool
  savedArtworks : ArtworkStore
  calls : List Call

/-- The method `setupCanvas`: setting `canvas.width` resets the bitmap to
transparent black, then the whole bitmap is filled with `'#ffffff'`. -/
def setupCanvas (s : Editor) : Editor :=
  { s with canvas := fillRect (fun _ _ => transparentBlack) 0 0 512 512 white.toPixel }

/-- The constructor followed by `init()`; `stored` is the parsed content of
the `pixelArtworks` key of local storage (`{}` when absent): the own properties
of an object whose prototype is `Object.prototype`. The palette, the
gallery and the grid overlay are DOM elements and carry no editor state. -/
def construct (stored : String → Option Artwork) : Editor :=
  setupCanvas
    { canvas := fun _ _ => transparentBlack
      currentTool := .pencil
      currentColor := .hex 255 0 0
      gridSize := 16
      pixelSize := 32
      isDrawing := false
      hasFilled := false
      savedArtworks := { own := stored, proto := none }
      calls := [] }

/-- The method `drawPixel(x, y, color)`: one `fillRect` of the block of cell
`(x, y)`. -/
def drawPixel (s : Editor) (x y : Int) (color : ColorStr) : Editor :=
  { s with
    canvas := fillRect s.canvas (x * s.pixelSize) (y * s.pixelSize) s.pixelSize s.pixelSize
      color.toPixel
    calls := s.calls ++ [Call.drawPixel x y color] }

/-- The method `getPixelColor(x, y)`: the `rgb(r, g, b)` string of the pixel
at the centre `(x * pixelSize + pixelSize/2, y * pixelSize + pixelSize/2)` of
the cell. The alpha byte `data[3]` is not read. The source divides
`pixelSize` by two as a real number; the pixel sizes of the editor (64, 32,
16, 8) are even, where this is integer division. -/
def getPixelColor (s : Editor) (x y : Int) : ColorStr :=
  let pixelData := getImageData s.canvas
    (x * s.pixelSize + (s.pixelSize / 2 : Nat)) (y * s.pixelSize + (s.pixelSize / 2 : Nat))
  .rgb pixelData.r pixelData.g pixelData.b

/-- The grid sizes offered by the grid-size select, as the specification lists
them: 8, 16, 32 and 64 (the options are page markup, outside `script.js`). -/
def Supported (g : Nat) : Prop := g = 8 ∨ g = 16 ∨ g = 32 ∨ g = 64

instance (g : Nat) : Decidable (Supported g) := by
  unfold Supported; infer_instance

/-- A cell index pair lies in `[0, gridSize) x [0, gridSize)`. -/
def inGrid (s : Editor) (x y : Int) : Prop :=
  0 ≤ x ∧ x < s.gridSize ∧ 0 ≤ y ∧ y < s.gridSize

instance (s : Editor) (x y : Int) : Decidable (inGrid s x y) := by
  unfold inGrid; infer_instance

/-! ## Flood fill -/

/-- The local variables of the `while` loop of `floodFill`, with the editor
they act on. `stack` lists the JS array from its end: the head is the entry
that `stack.pop()` returns. `visited` holds the keys added to the `Set`; a
key is the string `x,y`, which determines the pair `(x, y)`. -/
structure FillLoop where
  ed : Editor
  stack : List (Int × Int)
  visited : List (Int × Int)

/-- One pass through the body of the `while` loop, after `[x, y]` has been
popped and `rest` remains on the stack. The three `continue` guards are tried
in the order of the source; a cell that passes them is painted, marked
visited, and its four neighbours are pushed (the last one pushed,
`[x, y - 1]`, ends on top). -/
def fillBody (targetColor newColor : ColorStr) (ed : Editor) (visited : List (Int × Int))
    (x y : Int) (rest : List (Int × Int)) : FillLoop :=
  if (x, y) ∈ visited then ⟨ed, rest, visited⟩
  else if x < 0 ∨ x ≥ ed.gridSize ∨ y < 0 ∨ y ≥ ed.gridSize then ⟨ed, rest, visited⟩
  else if getPixelColor ed x y ≠ targetColor then ⟨ed, rest, visited⟩
  else
    ⟨drawPixel ed x y newColor,
      (x, y - 1) :: (x, y + 1) :: (x - 1, y) :: (x + 1, y) :: rest,
      (x, y) :: visited⟩

/-- The loop `while (stack.length > 0) { ... }`, run for at most `fuel`
passes. It returns as soon as the stack is empty. -/
def fillLoop (targetColor newColor : ColorStr) : Nat → FillLoop → FillLoop
  | 0, st => st
  | fuel + 1, st =>
    match st.stack with
    | [] => st
    | (x, y) :: rest =>
      fillLoop targetColor newColor fuel (fillBody targetColor newColor st.ed st.visited x y rest)

/-- Number of passes granted to the loop of `floodFill`: the seed plus four
pushes for every cell of the grid. -/
def fillFuel (s : Editor) : Nat := 4 * s.gridSize * s.gridSize + 1

/-- The state in which the `while` loop of `floodFill` is left, entered with
`stack = [[startX, startY]]` and an empty `visited`. -/
def floodFillLoop (s : Editor) (startX startY : Int) (newColor : ColorStr) : FillLoop :=
  fillLoop (getPixelColor s startX startY) newColor (fillFuel s) ⟨s, [(startX, startY)], []⟩

/-- The method `floodFill(startX, startY, newColor)`. The unused local
`imageData` is omitted. `targetColor` is an `rgb(...)` string and is compared
with `newColor` as a string. -/
def floodFill (s : Editor) (startX startY : Int) (newColor : ColorStr) : Editor :=
  let s := { s with calls := s.calls ++ [Call.floodFill startX startY newColor] }
  let targetColor := getPixelColor s startX startY
  if targetColor = newColor then s
  else { (floodFillLoop s startX startY newColor).ed with hasFilled := false }

/-! ## Event handlers -/

/-- The method `handleDraw(e)`, with `x = e.clientX - rect.left` and
`y = e.clientY - rect.top` given as rational numbers. A zero `pixelSize`
makes both quotients infinite or NaN in the source, which fails the range
test. -/
def handleDraw (s : Editor) (x y : ℚ) : Editor :=
  if s.pixelSize = 0 then s
  else
    let pixelX : Int := ⌊x / (s.pixelSize : ℚ)⌋
    let pixelY : Int := ⌊y / (s.pixelSize : ℚ)⌋
    if pixelX ≥ 0 ∧ pixelX < s.gridSize ∧ pixelY ≥ 0 ∧ pixelY < s.gridSize then
      match s.currentTool with
      | .pencil => drawPixel s pixelX pixelY s.currentColor
      | .eraser => drawPixel s pixelX pixelY white
      | .fill =>
        if !s.hasFilled then
          { floodFill s pixelX pixelY s.currentColor with hasFilled := true }
        else s
    else s

/-- The `change` handler of the grid-size select, `value` being
`parseInt(e.target.value)`. `createGrid` only rebuilds the overlay element.
The source computes `512 / gridSize` as a real number; natural-number
division agrees with it when `gridSize` divides 512, as the sizes offered by
the editor do. -/
def gridSizeChange (s : Editor) (value : Nat) : Editor :=
  { s with gridSize := value, pixelSize := 512 / value }

/-- The `click` handler of the new-grid button; `confirmed` is the answer to
the dialog. -/
def newGrid (s : Editor) (confirmed : Bool) : Editor :=
  if confirmed then setupCanvas s else s

/-- The `click` handler of the clear button; `confirmed` is the answer to the
dialog. -/
def clearCanvas (s : Editor) (confirmed : Bool) : Editor :=
  if confirmed then setupCanvas s else s

/-- The characters that `String.prototype.trim` strips: the white space of
ECMAScript (tab, vertical tab, form feed, space, no-break space, the
zero-width no-break space U+FEFF and the other space separators of Unicode)
and its line terminators (line feed, carriage return, U+2028, U+2029). -/
def isTrimChar (c : Char) : Bool :=
  c.toNat == 0x09 || c.toNat == 0x0A || c.toNat == 0x0B || c.toNat == 0x0C
    || c.toNat == 0x0D || c.toNat == 0x20 || c.toNat == 0xA0 || c.toNat == 0x1680
    || (0x2000 ≤ c.toNat && c.toNat ≤ 0x200A)
    || c.toNat == 0x2028 || c.toNat == 0x2029 || c.toNat == 0x202F || c.toNat == 0x205F
    || c.toNat == 0x3000 || c.toNat == 0xFEFF

/-- The method `trim()` of a string, the text being taken as a sequence of
Unicode characters: the characters of `isTrimChar` are dropped from both
ends. -/
def jsTrim (text : String) : String :=
  String.mk ((text.data.dropWhile isTrimChar).reverse.dropWhile isTrimChar).reverse

/-- The name under which `saveArtwork` stores: the trimmed text of the name
input, or `Artwork_` followed by the time in milliseconds when that is
empty. -/
def artworkName (input : String) (time : Nat) : String :=
  if jsTrim input = "" then "Artwork_" ++ toString time else jsTrim input

/-- The method `saveArtwork()`. `input` is the text of the name input, `time`
and `stamp` are `new Date().getTime()` and `new Date().toLocaleString()`,
`confirmed` is the answer to the overwrite dialog, asked only when
`this.savedArtworks[name]` is truthy. The placeholder feedback touches the DOM
only. -/
def saveArtwork (s : Editor) (input : String) (time : Nat) (stamp : String)
    (confirmed : Bool) : Editor :=
  let name := artworkName input time
  if (s.savedArtworks.get name).truthy = true ∧ confirmed = false then s
  else
    { s with
      savedArtworks := s.savedArtworks.set name
        { imageData := s.canvas, gridSize := s.gridSize, savedAt := stamp } }

/-- The method `loadArtwork(name)`, taken up to the completion of
`img.onload`; `confirmed` is the answer to the dialog. When the value read is
truthy but no record (an inherited function, string or number), its
`imageData` is `undefined`: the image source is then the text `undefined`,
which is no image, and `onload` never runs. -/
def loadArtwork (s : Editor) (name : String) (confirmed : Bool) : Editor :=
  match s.savedArtworks.get name with
  | .undefined => s
  | .other _ => s
  | .record artwork =>
    if confirmed then
      { s with
        canvas := drawImage (clearRect s.canvas 0 0 512 512) artwork.imageData
        gridSize := artwork.gridSize
        pixelSize := 512 / artwork.gridSize }
    else s

/-- The input events of the page that reach the editor. -/
inductive Event where
  | mousedown (x y : ℚ)
  | mousemove (x y : ℚ)
  | mouseup
  | selectTool (tool : Tool)
  | pickColor (color : ColorStr)
  | addColor
  | gridSize (value : Nat)
  | newGrid (confirmed : Bool)
  | clear (confirmed : Bool)
  | save (input : String) (time : Nat) (stamp : String) (confirmed : Bool)
  | exportPNG
  | load (name : String) (confirmed : Bool)

/-- The listener that `setupEventListeners` (or the gallery markup, for
`load`) attaches to each event. -/
def handle (s : Editor) : Event → Editor
  | .mousedown x y => handleDraw { s with isDrawing := true } x y
  | .mousemove x y => if s.isDrawing then handleDraw s x y else s
  | .mouseup => { s with isDrawing := false }
  | .selectTool tool => { s with currentTool := tool }
  | .pickColor color => { s with currentColor := color }
  | .addColor => s
  | .gridSize value => gridSizeChange s value
  | .newGrid confirmed => newGrid s confirmed
  | .clear confirmed => clearCanvas s confirmed
  | .save input time stamp confirmed => saveArtwork s input time stamp confirmed
  | .exportPNG => s
  | .load name confirmed => loadArtwork s name confirmed

/-- The editor after a sequence of events, oldest first. -/
def run (s : Editor) (events : List Event) : Editor :=
  events.foldl handle s

/-! ## Predicates and measures used in the statements -/

/-- The `drawPixel` call that the loop makes for a cell. -/
def paintCall (newColor : ColorStr) (c : Int × Int) : Call :=
  Call.drawPixel c.1 c.2 newColor

/-- The loop state after a pass that painted cell `(x, y)`. -/
def paintedState (newColor : ColorStr) (ed : Editor) (visited : List (Int × Int))
    (x y : Int) (rest : List (Int × Int)) : FillLoop :=
  ⟨drawPixel ed x y newColor,
    (x, y - 1) :: (x, y + 1) :: (x - 1, y) :: (x + 1, y) :: rest,
    (x, y) :: visited⟩

/-- What every pass of the loop keeps true, whatever the canvas holds: only
the bitmap and the call log of the editor change, `visited` lists distinct
cells of the grid, and the log has grown by one `drawPixel` call per visited
cell, in the order of painting. -/
structure PaintInv (s0 : Editor) (newColor : ColorStr) (st : FillLoop) : Prop where
  gridSize : st.ed.gridSize = s0.gridSize
  pixelSize : st.ed.pixelSize = s0.pixelSize
  currentTool : st.ed.currentTool = s0.currentTool
  currentColor : st.ed.currentColor = s0.currentColor
  isDrawing : st.ed.isDrawing = s0.isDrawing
  hasFilled : st.ed.hasFilled = s0.hasFilled
  savedArtworks : st.ed.savedArtworks = s0.savedArtworks
  nodup : st.visited.Nodup
  cells : ∀ c ∈ st.visited, inGrid s0 c.1 c.2
  calls : st.ed.calls = s0.calls ++ st.visited.reverse.map (paintCall newColor)

/-- Passes still owed by a loop state: one per stack entry and four per cell
not yet painted. -/
def passesLeft (G : Nat) (st : FillLoop) : Nat :=
  st.stack.length + 4 * (G * G - st.visited.length)

/-- Cell `(x2, y2)` is the right, left, lower or upper neighbour of `(x, y)`:
the four cells that the loop pushes. -/
def Adjacent (x y x2 y2 : Int) : Prop :=
  (x2 = x + 1 ∧ y2 = y) ∨ (x2 = x - 1 ∧ y2 = y) ∨ (x2 = x ∧ y2 = y + 1) ∨ (x2 = x ∧ y2 = y - 1)

/-- The 4-connected region of the seed: the cells reached from `(sx, sy)` by
steps to adjacent cells of the grid whose centre has, in the canvas of `s`,
the colour sampled at the seed. -/
inductive Region (s : Editor) (sx sy : Int) : Int → Int → Prop
  | seed : Region s sx sy sx sy
  | step {x y x2 y2 : Int} : Region s sx sy x y → Adjacent x y x2 y2 → inGrid s x2 y2 →
      getPixelColor s x2 y2 = getPixelColor s sx sy → Region s sx sy x2 y2

/-- What the passes of the loop keep true on a grid that tiles the bitmap.
`canvas`: a pixel has the new colour if its cell was visited and its initial
colour otherwise. `sound`: visited cells belong to the region. `origin`: a
stack entry is the seed or a neighbour of a visited cell. `seedKept` and
`closed`: the seed, and every neighbour of a visited cell that is in the grid
with the target colour, is visited or still on the stack. -/
structure RegionInv (s0 : Editor) (sx sy : Int) (newColor : ColorStr) (st : FillLoop) : Prop where
  canvas : ∀ px py, inCanvas px py →
    st.ed.canvas px py =
      if (px / (s0.pixelSize : Int), py / (s0.pixelSize : Int)) ∈ st.visited then
        newColor.toPixel
      else s0.canvas px py
  sound : ∀ c ∈ st.visited, Region s0 sx sy c.1 c.2
  origin : ∀ c ∈ st.stack, c = (sx, sy) ∨ ∃ v ∈ st.visited, Adjacent v.1 v.2 c.1 c.2
  seedKept : (sx, sy) ∈ st.visited ∨ (sx, sy) ∈ st.stack
  closed : ∀ v ∈ st.visited, ∀ x2 y2, Adjacent v.1 v.2 x2 y2 → inGrid s0 x2 y2 →
    getPixelColor s0 x2 y2 = getPixelColor s0 sx sy → (x2, y2) ∈ st.visited ∨ (x2, y2) ∈ st.stack

/-- An editor reached through the page: on the fresh 16-grid the grid size is
set to 64, cell `(2, 2)` (raster block `[16,24) x [16,24)`) is pencilled red,
and the grid size is set back to 16. The centre `(16, 16)` of the 16-grid cell
`(0, 0)` is then red while the rest of that cell is white. -/
def redCentre : Editor :=
  gridSizeChange (drawPixel (gridSizeChange (construct fun _ => none) 64) 2 2 (.hex 255 0 0)) 16

/-- An editor in which the artwork `cat` has been saved. -/
def withCat : Editor := saveArtwork (construct fun _ => none) "cat" 0 "noon" true

/-- The grid invariant: the grid size is one of those offered, it divides 512
with quotient `pixelSize`, and every stored record carries an offered size. -/
def GridInv (s : Editor) : Prop :=
  Supported s.gridSize ∧ s.gridSize * s.pixelSize = 512 ∧ 512 % s.gridSize = 0
    ∧ ∀ name a, s.savedArtworks.get name = .record a → Supported a.gridSize

/-- The grid-size select offers only the supported sizes. -/
def Event.offered : Event → Prop
  | .gridSize value => Supported value
  | _ => True

/-- The log entry is a call of `floodFill`. -/
def Call.isFloodFill : Call → Bool
  | .floodFill _ _ _ => true
  | .drawPixel _ _ _ => false

/-- Number of `floodFill` calls the editor has made. -/
def fillCount (s : Editor) : Nat := s.calls.countP Call.isFloodFill

/-- The flag and the call count agree: `hasFilled` is set exactly when one
`floodFill` call has been made, and none has been made while it is unset. -/
def LatchInv (s : Editor) : Prop :=
  fillCount s = if s.hasFilled = true then 1 else 0

/-! ## Geometry of the grid -/

/-- The cell whose block contains raster coordinate `px`, for cells of
`p` raster pixels. -/
theorem block_iff {p : Nat} (hp : 0 < p) (x px : Int) :
    (x * (p : Int) ≤ px ∧ px < x * (p : Int) + (p : Int)) ↔ px / (p : Int) = x := by
  have hp' : (0 : Int) < (p : Int) := by exact_mod_cast hp
  constructor
  · rintro ⟨h1, h2⟩
    apply le_antisymm
    · have : px / (p : Int) < x + 1 := by
        rw [Int.ediv_lt_iff_lt_mul hp']
        linarith [add_mul x 1 (p : Int)]
      omega
    · rw [Int.le_ediv_iff_mul_le hp']
      exact h1
  · intro h
    have h1 : x ≤ px / (p : Int) := by omega
    have h2 : px / (p : Int) < x + 1 := by omega
    rw [Int.le_ediv_iff_mul_le hp'] at h1
    rw [Int.ediv_lt_iff_lt_mul hp'] at h2
    exact ⟨h1, by linarith [add_mul x 1 (p : Int)]⟩

theorem center_cell {p : Nat} (hp : 0 < p) (x : Int) :
    (x * (p : Int) + ((p / 2 : Nat) : Int)) / (p : Int) = x := by
  rw [← block_iff hp]
  have : p / 2 < p := Nat.div_lt_self hp (by decide)
  omega

theorem coord_in_range_iff {G p : Nat} (hp : 0 < p) (hGp : G * p = 512) (px : Int) :
    (0 ≤ px ∧ px < 512) ↔ (0 ≤ px / (p : Int) ∧ px / (p : Int) < (G : Int)) := by
  have hp' : (0 : Int) < (p : Int) := by exact_mod_cast hp
  have h512 : ((G : Int)) * (p : Int) = 512 := by exact_mod_cast hGp
  rw [Int.ediv_lt_iff_lt_mul hp', Int.le_ediv_iff_mul_le hp', h512]
  simp

theorem inCanvas_iff_inGrid (s : Editor) (hp : 0 < s.pixelSize)
    (hGp : s.gridSize * s.pixelSize = 512) (px py : Int) :
    inCanvas px py ↔ inGrid s (px / (s.pixelSize : Int)) (py / (s.pixelSize : Int)) := by
  have hx := coord_in_range_iff hp hGp px
  have hy := coord_in_range_iff hp hGp py
  unfold inCanvas inGrid
  tauto

theorem center_inCanvas (s : Editor) (hp : 0 < s.pixelSize)
    (hGp : s.gridSize * s.pixelSize = 512) (x y : Int) (h : inGrid s x y) :
    inCanvas (x * (s.pixelSize : Int) + ((s.pixelSize / 2 : Nat) : Int))
      (y * (s.pixelSize : Int) + ((s.pixelSize / 2 : Nat) : Int)) := by
  rw [inCanvas_iff_inGrid s hp hGp, center_cell hp, center_cell hp]
  exact h

theorem supported_pixelSize {G p : Nat} (hG : Supported G) (hp : p = 512 / G) :
    0 < p ∧ G * p = 512 ∧ p % 2 = 0 := by
  rcases hG with h | h | h | h <;> subst h <;> subst hp <;> decide

theorem supported_div (g : Nat) (h : Supported g) : g * (512 / g) = 512 ∧ 512 % g = 0 := by
  rcases h with h | h | h | h <;> subst h <;> decide

/-- The canvas of `drawPixel`, pixel by pixel: the pixels of the bitmap whose
cell is `(x, y)` take the colour, the others are kept. -/
theorem drawPixel_canvas (s : Editor) (hp : 0 < s.pixelSize) (x y : Int) (c : ColorStr)
    (px py : Int) (hin : inCanvas px py) :
    (drawPixel s x y c).canvas px py =
      if px / (s.pixelSize : Int) = x ∧ py / (s.pixelSize : Int) = y then c.toPixel
      else s.canvas px py := by
  have hx := block_iff hp x px
  have hy := block_iff hp y py
  simp only [drawPixel, fillRect]
  by_cases h : px / (s.pixelSize : Int) = x ∧ py / (s.pixelSize : Int) = y
  · rw [if_pos h, if_pos]
    exact ⟨hin, (hx.2 h.1).1, (hx.2 h.1).2, (hy.2 h.2).1, (hy.2 h.2).2⟩
  · rw [if_neg h, if_neg]
    rintro ⟨-, a, b, c, d⟩
    exact h ⟨hx.1 ⟨a, b⟩, hy.1 ⟨c, d⟩⟩

/-- Reading a cell of the grid: the pixel at its centre. -/
theorem getPixelColor_inGrid (s : Editor) (hp : 0 < s.pixelSize)
    (hGp : s.gridSize * s.pixelSize = 512) (x y : Int) (h : inGrid s x y) :
    getPixelColor s x y =
      .rgb (s.canvas (x * (s.pixelSize : Int) + ((s.pixelSize / 2 : Nat) : Int))
              (y * (s.pixelSize : Int) + ((s.pixelSize / 2 : Nat) : Int))).r
           (s.canvas (x * (s.pixelSize : Int) + ((s.pixelSize / 2 : Nat) : Int))
              (y * (s.pixelSize : Int) + ((s.pixelSize / 2 : Nat) : Int))).g
           (s.canvas (x * (s.pixelSize : Int) + ((s.pixelSize / 2 : Nat) : Int))
              (y * (s.pixelSize : Int) + ((s.pixelSize / 2 : Nat) : Int))).b := by
  simp only [getPixelColor, getImageData, if_pos (center_inCanvas s hp hGp x y h)]

/-- **C3.** On a supported grid (`gridSize` one of 8, 16, 32, 64 and
`pixelSize = 512 / gridSize`), for every cell `(gx, gy)` of the grid and every
colour `c`: after `drawPixel(gx, gy, c)` the colour sampled by
`getPixelColor(gx, gy)` is the colour of `c` (as the string `rgb(r, g, b)` of
its channels), and the sampled centre pixel lies inside the bitmap and inside
the filled block `[gx*pixelSize, (gx+1)*pixelSize) x [gy*pixelSize, (gy+1)*pixelSize)`. -/
theorem drawPixel_then_getPixelColor (s : Editor) (gx gy : Int) (c : ColorStr)
    (hG : Supported s.gridSize) (hp : s.pixelSize = 512 / s.gridSize)
    (hcell : inGrid s gx gy) :
    getPixelColor (drawPixel s gx gy c) gx gy
        = .rgb c.channels.1 c.channels.2.1 c.channels.2.2
      ∧ inCanvas (gx * (s.pixelSize : Int) + ((s.pixelSize / 2 : Nat) : Int))
          (gy * (s.pixelSize : Int) + ((s.pixelSize / 2 : Nat) : Int))
      ∧ gx * (s.pixelSize : Int) ≤ gx * (s.pixelSize : Int) + ((s.pixelSize / 2 : Nat) : Int)
      ∧ gx * (s.pixelSize : Int) + ((s.pixelSize / 2 : Nat) : Int) < (gx + 1) * (s.pixelSize : Int)
      ∧ gy * (s.pixelSize : Int) ≤ gy * (s.pixelSize : Int) + ((s.pixelSize / 2 : Nat) : Int)
      ∧ gy * (s.pixelSize : Int) + ((s.pixelSize / 2 : Nat) : Int) < (gy + 1) * (s.pixelSize : Int) := by
  obtain ⟨hpos, hGp, -⟩ := supported_pixelSize hG hp
  have hc := center_inCanvas s hpos hGp gx gy hcell
  have hbx := (block_iff hpos gx _).2 (center_cell hpos gx)
  have hby := (block_iff hpos gy _).2 (center_cell hpos gy)
  refine ⟨?_, hc, hbx.1, by linarith [hbx.2, add_mul gx 1 (s.pixelSize : Int)], hby.1,
    by linarith [hby.2, add_mul gy 1 (s.pixelSize : Int)]⟩
  have hd := drawPixel_canvas s hpos gx gy c _ _ hc
  rw [if_pos ⟨center_cell hpos gx, center_cell hpos gy⟩] at hd
  have hg : getPixelColor (drawPixel s gx gy c) gx gy
      = .rgb ((drawPixel s gx gy c).canvas _ _).r ((drawPixel s gx gy c).canvas _ _).g
          ((drawPixel s gx gy c).canvas _ _).b :=
    getPixelColor_inGrid (drawPixel s gx gy c) hpos hGp gx gy hcell
  have e : (drawPixel s gx gy c).pixelSize = s.pixelSize := rfl
  rw [hg]
  simp only [e]
  rw [hd]
  rfl

theorem drawPixel_then_getPixelColor_witness :
    getPixelColor (drawPixel (construct fun _ => none) 3 5 (.hex 0 0 255)) 3 5 = .rgb 0 0 255 :=
  (drawPixel_then_getPixelColor (construct fun _ => none) 3 5 (.hex 0 0 255)
    (by decide) (by decide) (by decide)).1

/-! ## The loop of `floodFill`: termination and the cells it paints -/

/-- A pass of the loop either skips the popped cell (it is visited, outside
the grid, or of another colour) or paints it. -/
theorem fillBody_cases (t n : ColorStr) (ed : Editor) (v : List (Int × Int)) (x y : Int)
    (rest : List (Int × Int)) :
    (((x, y) ∈ v ∨ ¬ inGrid ed x y ∨ ((x, y) ∉ v ∧ inGrid ed x y ∧ getPixelColor ed x y ≠ t))
        ∧ fillBody t n ed v x y rest = ⟨ed, rest, v⟩)
      ∨ ((x, y) ∉ v ∧ inGrid ed x y ∧ getPixelColor ed x y = t
        ∧ fillBody t n ed v x y rest = paintedState n ed v x y rest) := by
  unfold fillBody paintedState
  by_cases h1 : (x, y) ∈ v
  · left; exact ⟨Or.inl h1, by rw [if_pos h1]⟩
  · rw [if_neg h1]
    by_cases h2 : x < 0 ∨ x ≥ ed.gridSize ∨ y < 0 ∨ y ≥ ed.gridSize
    · left
      refine ⟨Or.inr (Or.inl ?_), by rw [if_pos h2]⟩
      unfold inGrid; omega
    · rw [if_neg h2]
      have hin : inGrid ed x y := by unfold inGrid; omega
      by_cases h3 : getPixelColor ed x y ≠ t
      · left; exact ⟨Or.inr (Or.inr ⟨h1, hin, h3⟩), by rw [if_pos h3]⟩
      · right
        exact ⟨h1, hin, not_not.1 h3, by rw [if_neg h3]⟩

/-- A property of the loop state kept by every pass is kept by the loop. -/
theorem fillLoop_preserves (t n : ColorStr) (P : FillLoop → Prop)
    (hbody : ∀ ed v x y rest, P ⟨ed, (x, y) :: rest, v⟩ → P (fillBody t n ed v x y rest)) :
    ∀ fuel st, P st → P (fillLoop t n fuel st) := by
  intro fuel
  induction fuel with
  | zero => intro st h; exact h
  | succ k ih =>
    intro st h
    obtain ⟨ed, stack, v⟩ := st
    cases stack with
    | nil => exact h
    | cons top rest =>
      obtain ⟨x, y⟩ := top
      exact ih _ (hbody ed v x y rest h)

/-- Once the loop has emptied the stack, further fuel changes nothing. -/
theorem fillLoop_fuel_mono (t n : ColorStr) :
    ∀ fuel st, (fillLoop t n fuel st).stack = [] →
      ∀ extra, fillLoop t n (fuel + extra) st = fillLoop t n fuel st := by
  intro fuel
  induction fuel with
  | zero =>
    intro st h extra
    obtain ⟨ed, stack, v⟩ := st
    have hs : stack = [] := h
    subst hs
    cases extra <;> rfl
  | succ k ih =>
    intro st h extra
    obtain ⟨ed, stack, v⟩ := st
    cases stack with
    | nil => rw [Nat.add_right_comm]; rfl
    | cons top rest =>
      obtain ⟨x, y⟩ := top
      rw [Nat.add_right_comm]
      exact ih _ h extra

/-- A duplicate-free list of cells of a `G x G` grid has at most `G * G`
entries. -/
theorem cells_length_le (G : Nat) (l : List (Int × Int)) (hnd : l.Nodup)
    (h : ∀ c ∈ l, 0 ≤ c.1 ∧ c.1 < (G : Int) ∧ 0 ≤ c.2 ∧ c.2 < (G : Int)) :
    l.length ≤ G * G := by
  have hsub : l.toFinset ⊆ Finset.Ico (0 : Int) G ×ˢ Finset.Ico (0 : Int) G := by
    intro c hc
    have := h c (List.mem_toFinset.1 hc)
    simp only [Finset.mem_product, Finset.mem_Ico]
    tauto
  have hcard := Finset.card_le_card hsub
  rw [List.toFinset_card_of_nodup hnd, Finset.card_product, Int.card_Ico] at hcard
  simpa using hcard

/-- A duplicate-free list holding every cell of a `G x G` grid and no other
has exactly `G * G` entries. -/
theorem cells_length_eq (G : Nat) (l : List (Int × Int)) (hnd : l.Nodup)
    (h : ∀ c, c ∈ l ↔ (0 ≤ c.1 ∧ c.1 < (G : Int) ∧ 0 ≤ c.2 ∧ c.2 < (G : Int))) :
    l.length = G * G := by
  have heq : l.toFinset = Finset.Ico (0 : Int) G ×ˢ Finset.Ico (0 : Int) G := by
    ext c
    simp only [List.mem_toFinset, Finset.mem_product, Finset.mem_Ico, h c]
    tauto
  have hcard := congrArg Finset.card heq
  rw [List.toFinset_card_of_nodup hnd, Finset.card_product, Int.card_Ico] at hcard
  simpa using hcard

theorem PaintInv.atStart (s0 : Editor) (n : ColorStr) (stack : List (Int × Int)) :
    PaintInv s0 n ⟨s0, stack, []⟩ :=
  { gridSize := rfl, pixelSize := rfl, currentTool := rfl, currentColor := rfl,
    isDrawing := rfl, hasFilled := rfl, savedArtworks := rfl,
    nodup := List.nodup_nil, cells := (by intro c hc; cases hc),
    calls := (by simp) }

theorem PaintInv.restack {s0 : Editor} {n : ColorStr} {ed : Editor}
    {stack v : List (Int × Int)} (h : PaintInv s0 n ⟨ed, stack, v⟩)
    (stack2 : List (Int × Int)) : PaintInv s0 n ⟨ed, stack2, v⟩ :=
  { gridSize := h.gridSize, pixelSize := h.pixelSize, currentTool := h.currentTool,
    currentColor := h.currentColor, isDrawing := h.isDrawing, hasFilled := h.hasFilled,
    savedArtworks := h.savedArtworks, nodup := h.nodup, cells := h.cells, calls := h.calls }

theorem PaintInv.paint {s0 : Editor} {n : ColorStr} {ed : Editor}
    {stack v : List (Int × Int)} (h : PaintInv s0 n ⟨ed, stack, v⟩) (x y : Int)
    (rest : List (Int × Int)) (hnew : (x, y) ∉ v) (hin : inGrid ed x y) :
    PaintInv s0 n (paintedState n ed v x y rest) :=
  { gridSize := h.gridSize, pixelSize := h.pixelSize, currentTool := h.currentTool,
    currentColor := h.currentColor, isDrawing := h.isDrawing, hasFilled := h.hasFilled,
    savedArtworks := h.savedArtworks,
    nodup := List.nodup_cons.2 ⟨hnew, h.nodup⟩,
    cells := (by
      intro c hc
      rcases List.mem_cons.1 hc with rfl | hc
      · have hg : ed.gridSize = s0.gridSize := h.gridSize
        unfold inGrid at hin ⊢
        rw [← hg]; exact hin
      · exact h.cells c hc),
    calls := (by
      have hc : ed.calls = s0.calls ++ v.reverse.map (paintCall n) := h.calls
      simp [paintedState, drawPixel, hc, paintCall]) }

theorem PaintInv.afterPass {s0 : Editor} {t n : ColorStr} {ed : Editor}
    {v : List (Int × Int)} (x y : Int) (rest : List (Int × Int))
    (h : PaintInv s0 n ⟨ed, (x, y) :: rest, v⟩) :
    PaintInv s0 n (fillBody t n ed v x y rest) := by
  rcases fillBody_cases t n ed v x y rest with ⟨-, e⟩ | ⟨h1, h2, -, e⟩
  · rw [e]; exact h.restack rest
  · rw [e]; exact h.paint x y rest h1 h2

theorem PaintInv.visited_le {s0 : Editor} {n : ColorStr} {st : FillLoop}
    (h : PaintInv s0 n st) : st.visited.length ≤ s0.gridSize * s0.gridSize :=
  cells_length_le s0.gridSize st.visited h.nodup h.cells

theorem passesLeft_body {s0 : Editor} {t n : ColorStr} {ed : Editor}
    {v : List (Int × Int)} (x y : Int) (rest : List (Int × Int))
    (h : PaintInv s0 n ⟨ed, (x, y) :: rest, v⟩) :
    passesLeft s0.gridSize (fillBody t n ed v x y rest) + 1
      ≤ passesLeft s0.gridSize ⟨ed, (x, y) :: rest, v⟩ := by
  rcases fillBody_cases t n ed v x y rest with ⟨-, e⟩ | ⟨h1, h2, -, e⟩
  · rw [e]; simp only [passesLeft, List.length_cons]; omega
  · have hle := (h.paint x y rest h1 h2).visited_le
    rw [e]
    simp only [passesLeft, paintedState, List.length_cons] at hle ⊢
    omega

/-- The loop empties the stack when given at least `passesLeft` passes. -/
theorem fillLoop_stack_empty {s0 : Editor} (t n : ColorStr) :
    ∀ fuel st, PaintInv s0 n st → passesLeft s0.gridSize st ≤ fuel →
      (fillLoop t n fuel st).stack = [] := by
  intro fuel
  induction fuel with
  | zero =>
    intro st _ hm
    obtain ⟨ed, stack, v⟩ := st
    have : stack.length = 0 := by simp only [passesLeft] at hm; omega
    exact List.length_eq_zero.1 this
  | succ k ih =>
    intro st h hm
    obtain ⟨ed, stack, v⟩ := st
    cases stack with
    | nil => rfl
    | cons top rest =>
      obtain ⟨x, y⟩ := top
      have hdec := @passesLeft_body _ t _ _ _ x y rest h
      exact ih (fillBody t n ed v x y rest) (h.afterPass x y rest) (by omega)

theorem floodFillLoop_stack_empty (s : Editor) (x y : Int) (n : ColorStr) :
    (floodFillLoop s x y n).stack = [] := by
  apply @fillLoop_stack_empty s _ n _ _ (PaintInv.atStart s n _)
  simp only [passesLeft, fillFuel, List.length_cons, List.length_nil, Nat.mul_assoc]
  omega

theorem floodFillLoop_inv (s : Editor) (x y : Int) (n : ColorStr) :
    PaintInv s n (floodFillLoop s x y n) :=
  fillLoop_preserves _ n (PaintInv s n)
    (fun _ _ x y rest h => h.afterPass x y rest) _ _ (PaintInv.atStart s n _)

/-- The editor on which the loop of `floodFill` starts: the call is logged. -/
theorem floodFill_eq (s : Editor) (x y : Int) (n : ColorStr) :
    floodFill s x y n =
      if getPixelColor s x y = n then
        { s with calls := s.calls ++ [Call.floodFill x y n] }
      else
        { (floodFillLoop { s with calls := s.calls ++ [Call.floodFill x y n] } x y n).ed with
          hasFilled := false } := rfl

/-! ## The region filled -/

/-- An unvisited cell of the grid still shows its initial colour. -/
theorem getPixelColor_unvisited {s0 : Editor} {sx sy : Int} {n : ColorStr} {ed : Editor}
    {stack v : List (Int × Int)} (hp : 0 < s0.pixelSize)
    (hGp : s0.gridSize * s0.pixelSize = 512)
    (hP : PaintInv s0 n ⟨ed, stack, v⟩) (hR : RegionInv s0 sx sy n ⟨ed, stack, v⟩)
    (x y : Int) (hin : inGrid s0 x y) (hnv : (x, y) ∉ v) :
    getPixelColor ed x y = getPixelColor s0 x y := by
  have hps : ed.pixelSize = s0.pixelSize := hP.pixelSize
  have hgs : ed.gridSize = s0.gridSize := hP.gridSize
  have hin2 : inGrid ed x y := by unfold inGrid at hin ⊢; rw [hgs]; exact hin
  rw [getPixelColor_inGrid ed (by omega) (by rw [hps, hgs]; exact hGp) x y hin2,
    getPixelColor_inGrid s0 hp hGp x y hin, hps]
  have hc := hR.canvas _ _ (center_inCanvas s0 hp hGp x y hin)
  simp only [center_cell hp] at hc
  rw [if_neg hnv] at hc
  rw [hc]

theorem RegionInv.atSeed (s0 : Editor) (sx sy : Int) (n : ColorStr) :
    RegionInv s0 sx sy n ⟨s0, [(sx, sy)], []⟩ :=
  { canvas := (by intro px py _; simp),
    sound := (by intro c hc; cases hc),
    origin := (by intro c hc; left; simpa using hc),
    seedKept := (by right; simp),
    closed := (by intro v hv; cases hv) }

theorem RegionInv.afterBody {s0 : Editor} {sx sy : Int} {n : ColorStr} {ed : Editor}
    {v : List (Int × Int)} (hp : 0 < s0.pixelSize) (hGp : s0.gridSize * s0.pixelSize = 512)
    (hseed : inGrid s0 sx sy) (x y : Int) (rest : List (Int × Int))
    (hP : PaintInv s0 n ⟨ed, (x, y) :: rest, v⟩)
    (hR : RegionInv s0 sx sy n ⟨ed, (x, y) :: rest, v⟩) :
    RegionInv s0 sx sy n (fillBody (getPixelColor s0 sx sy) n ed v x y rest) := by
  have hps : ed.pixelSize = s0.pixelSize := hP.pixelSize
  have hgs : ed.gridSize = s0.gridSize := hP.gridSize
  have hgrid : ∀ a b, inGrid ed a b ↔ inGrid s0 a b := by
    intro a b; unfold inGrid; rw [hgs]
  have hcan := hR.canvas
  have hsound := hR.sound
  have horigin := hR.origin
  have hkept := hR.seedKept
  have hclosed := hR.closed
  simp only at hcan hsound horigin hkept hclosed
  rcases fillBody_cases (getPixelColor s0 sx sy) n ed v x y rest with ⟨hskip, e⟩ | ⟨h1, h2, h3, e⟩
  · -- the popped cell is skipped: it is visited, or not a cell of the region
    have hvis : ∀ a b, (a, b) = (x, y) → inGrid s0 a b →
        getPixelColor s0 a b = getPixelColor s0 sx sy → (a, b) ∈ v := by
      intro a b hab hin hcol
      obtain ⟨rfl, rfl⟩ := Prod.mk.inj hab
      rcases hskip with h | h | ⟨hnv, _, h⟩
      · exact h
      · exact absurd ((hgrid a b).2 hin) h
      · exact absurd ((getPixelColor_unvisited hp hGp hP hR a b hin hnv).trans hcol) h
    rw [e]
    refine ⟨hcan, hsound, ?_, ?_, ?_⟩
    · intro c hc
      exact horigin c (List.mem_cons_of_mem _ hc)
    · rcases hkept with h | h
      · exact Or.inl h
      · rcases List.mem_cons.1 h with h | h
        · exact Or.inl (hvis sx sy h hseed rfl)
        · exact Or.inr h
    · intro w hw x2 y2 hadj hin hcol
      rcases hclosed w hw x2 y2 hadj hin hcol with h | h
      · exact Or.inl h
      · rcases List.mem_cons.1 h with h | h
        · exact Or.inl (hvis x2 y2 h hin hcol)
        · exact Or.inr h
  · -- the popped cell is painted
    have hin0 : inGrid s0 x y := (hgrid x y).1 h2
    have hcol0 : getPixelColor s0 x y = getPixelColor s0 sx sy :=
      (getPixelColor_unvisited hp hGp hP hR x y hin0 h1).symm.trans h3
    rw [e]
    refine ⟨?_, ?_, ?_, ?_, ?_⟩
    · intro px py hin
      have hd := drawPixel_canvas ed (by omega) x y n px py hin
      simp only [paintedState]
      rw [hd, hps, hcan px py hin]
      by_cases hxy : px / (s0.pixelSize : Int) = x ∧ py / (s0.pixelSize : Int) = y
      · rw [if_pos hxy, if_pos]
        rw [hxy.1, hxy.2]; exact List.mem_cons_self _ _
      · rw [if_neg hxy]
        have hne : (px / (s0.pixelSize : Int), py / (s0.pixelSize : Int)) ≠ (x, y) := by
          intro h; exact hxy (Prod.mk.inj h)
        by_cases hv : (px / (s0.pixelSize : Int), py / (s0.pixelSize : Int)) ∈ v
        · rw [if_pos hv, if_pos (List.mem_cons_of_mem _ hv)]
        · rw [if_neg hv, if_neg]
          intro h
          rcases List.mem_cons.1 h with h | h
          · exact hne h
          · exact hv h
    · intro c hc
      rcases List.mem_cons.1 hc with rfl | hc
      · rcases horigin (x, y) (List.mem_cons_self _ _) with h | ⟨w, hw, hadj⟩
        · obtain ⟨rfl, rfl⟩ := Prod.mk.inj h
          exact Region.seed
        · exact Region.step (hsound w hw) hadj hin0 hcol0
      · exact hsound c hc
    · intro c hc
      simp only [paintedState, List.mem_cons] at hc
      rcases hc with rfl | rfl | rfl | rfl | hc
      · right; exact ⟨(x, y), List.mem_cons_self _ _, by simp [Adjacent]⟩
      · right; exact ⟨(x, y), List.mem_cons_self _ _, by simp [Adjacent]⟩
      · right; exact ⟨(x, y), List.mem_cons_self _ _, by simp [Adjacent]⟩
      · right; exact ⟨(x, y), List.mem_cons_self _ _, by simp [Adjacent]⟩
      · rcases horigin c (List.mem_cons_of_mem _ hc) with h | ⟨w, hw, hadj⟩
        · exact Or.inl h
        · exact Or.inr ⟨w, List.mem_cons_of_mem _ hw, hadj⟩
    · rcases hkept with h | h
      · exact Or.inl (List.mem_cons_of_mem _ h)
      · rcases List.mem_cons.1 h with h | h
        · left; rw [h]; exact List.mem_cons_self _ _
        · right; simp only [paintedState, List.mem_cons]; tauto
    · intro w hw x2 y2 hadj hin hcol
      rcases List.mem_cons.1 hw with rfl | hw
      · right
        simp only [paintedState, List.mem_cons, Prod.mk.injEq]
        unfold Adjacent at hadj
        tauto
      · rcases hclosed w hw x2 y2 hadj hin hcol with h | h
        · exact Or.inl (List.mem_cons_of_mem _ h)
        · rcases List.mem_cons.1 h with h | h
          · left; rw [h]; exact List.mem_cons_self _ _
          · right; simp only [paintedState, List.mem_cons]; tauto

/-- The loop of `floodFill` ends with the region invariant. -/
theorem floodFillLoop_regionInv (s0 : Editor) (sx sy : Int) (n : ColorStr)
    (hp : 0 < s0.pixelSize) (hGp : s0.gridSize * s0.pixelSize = 512) (hseed : inGrid s0 sx sy) :
    RegionInv s0 sx sy n (floodFillLoop s0 sx sy n) := by
  have h := fillLoop_preserves (getPixelColor s0 sx sy) n
    (fun st => PaintInv s0 n st ∧ RegionInv s0 sx sy n st)
    (fun ed v x y rest h => ⟨h.1.afterPass x y rest, RegionInv.afterBody hp hGp hseed x y rest h.1 h.2⟩)
    (fillFuel s0) ⟨s0, [(sx, sy)], []⟩ ⟨PaintInv.atStart s0 n _, RegionInv.atSeed s0 sx sy n⟩
  exact h.2

/-- When the loop of `floodFill` ends, the visited cells are the region. -/
theorem floodFillLoop_visited_iff (s0 : Editor) (sx sy : Int) (n : ColorStr)
    (hp : 0 < s0.pixelSize) (hGp : s0.gridSize * s0.pixelSize = 512) (hseed : inGrid s0 sx sy)
    (x y : Int) :
    (x, y) ∈ (floodFillLoop s0 sx sy n).visited ↔ Region s0 sx sy x y := by
  have hR := floodFillLoop_regionInv s0 sx sy n hp hGp hseed
  have hE := floodFillLoop_stack_empty s0 sx sy n
  constructor
  · intro h; exact hR.sound (x, y) h
  · intro h
    induction h with
    | seed =>
      rcases hR.seedKept with h | h
      · exact h
      · rw [hE] at h; cases h
    | step _ hadj hin hcol ih =>
      rcases hR.closed _ ih _ _ hadj hin hcol with h | h
      · exact h
      · rw [hE] at h; cases h

/-- The calls logged by `floodFill`: its own, then one `drawPixel` per entry of
a duplicate-free list of cells of the grid. -/
theorem floodFill_calls (s : Editor) (startX startY : Int) (newColor : ColorStr) :
    ∃ painted : List (Int × Int),
      (floodFill s startX startY newColor).calls
        = s.calls ++ Call.floodFill startX startY newColor
            :: painted.map (paintCall newColor)
      ∧ painted.Nodup
      ∧ painted.length ≤ s.gridSize * s.gridSize
      ∧ ∀ c ∈ painted, inGrid s c.1 c.2 := by
  have hP := floodFillLoop_inv
    { s with calls := s.calls ++ [Call.floodFill startX startY newColor] } startX startY newColor
  rw [floodFill_eq]
  by_cases hg : getPixelColor s startX startY = newColor
  · rw [if_pos hg]
    exact ⟨[], by simp, List.nodup_nil, Nat.zero_le _, by intro c hc; cases hc⟩
  · rw [if_neg hg]
    refine ⟨(floodFillLoop { s with calls := s.calls ++ [Call.floodFill startX startY newColor] }
      startX startY newColor).visited.reverse, ?_, List.nodup_reverse.2 hP.nodup, ?_, ?_⟩
    · have hc := hP.calls
      simp only [hc, List.append_assoc, List.singleton_append]
    · rw [List.length_reverse]; exact hP.visited_le
    · intro c hc
      exact hP.cells c (List.mem_reverse.1 hc)

/-- Apart from the bitmap, the call log and `hasFilled`, `floodFill` changes
no field of the editor. -/
theorem floodFill_frame (s : Editor) (x y : Int) (n : ColorStr) :
    (floodFill s x y n).gridSize = s.gridSize
      ∧ (floodFill s x y n).pixelSize = s.pixelSize
      ∧ (floodFill s x y n).savedArtworks = s.savedArtworks
      ∧ (floodFill s x y n).currentTool = s.currentTool
      ∧ (floodFill s x y n).currentColor = s.currentColor
      ∧ (floodFill s x y n).isDrawing = s.isDrawing := by
  have hP := floodFillLoop_inv { s with calls := s.calls ++ [Call.floodFill x y n] } x y n
  rw [floodFill_eq]
  by_cases hg : getPixelColor s x y = n
  · rw [if_pos hg]; exact ⟨rfl, rfl, rfl, rfl, rfl, rfl⟩
  · rw [if_neg hg]
    exact ⟨hP.gridSize, hP.pixelSize, hP.savedArtworks, hP.currentTool, hP.currentColor,
      hP.isDrawing⟩

/-- Cells of the region lie in the grid and show the colour of the seed. -/
theorem Region.inGrid_color {s : Editor} {sx sy x y : Int} (hseed : inGrid s sx sy)
    (h : Region s sx sy x y) :
    inGrid s x y ∧ getPixelColor s x y = getPixelColor s sx sy := by
  cases h with
  | seed => exact ⟨hseed, rfl⟩
  | step _ _ hin hcol => exact ⟨hin, hcol⟩

/-- Logging a call does not change the region. -/
theorem Region.logged_iff (s : Editor) (c : Call) (sx sy x y : Int) :
    Region { s with calls := s.calls ++ [c] } sx sy x y ↔ Region s sx sy x y := by
  constructor
  · intro h
    induction h with
    | seed => exact Region.seed
    | step _ hadj hin hcol ih => exact Region.step ih hadj hin hcol
  · intro h
    induction h with
    | seed => exact Region.seed
    | step _ hadj hin hcol ih => exact Region.step ih hadj hin hcol

/-- When every cell of the grid shows the colour of the seed, the region is
the whole grid. -/
theorem Region.all {s : Editor} {sx sy : Int} (hseed : inGrid s sx sy)
    (hall : ∀ x y, inGrid s x y → getPixelColor s x y = getPixelColor s sx sy)
    (x y : Int) (hxy : inGrid s x y) : Region s sx sy x y := by
  have hrow : ∀ k : Nat, ∀ a : Int, inGrid s a sy → (a - sx).natAbs = k →
      Region s sx sy a sy := by
    intro k
    induction k with
    | zero =>
      intro a _ h0
      have : a = sx := by omega
      rw [this]; exact Region.seed
    | succ k ih =>
      intro a ha hk
      unfold inGrid at ha hseed
      by_cases hlt : sx < a
      · have hprev := ih (a - 1) (by unfold inGrid; omega) (by omega)
        exact Region.step hprev (Or.inl ⟨by omega, rfl⟩) (by unfold inGrid; omega)
          (hall a sy (by unfold inGrid; omega))
      · have hprev := ih (a + 1) (by unfold inGrid; omega) (by omega)
        exact Region.step hprev (Or.inr (Or.inl ⟨by omega, rfl⟩)) (by unfold inGrid; omega)
          (hall a sy (by unfold inGrid; omega))
  have hcol : ∀ k : Nat, ∀ b : Int, inGrid s x b → (b - sy).natAbs = k →
      Region s sx sy x b := by
    intro k
    induction k with
    | zero =>
      intro b hb h0
      have : b = sy := by omega
      rw [this]
      exact hrow _ x (by unfold inGrid at hb hseed ⊢; omega) rfl
    | succ k ih =>
      intro b hb hk
      unfold inGrid at hb hseed
      by_cases hlt : sy < b
      · have hprev := ih (b - 1) (by unfold inGrid; omega) (by omega)
        exact Region.step hprev (Or.inr (Or.inr (Or.inl ⟨rfl, by omega⟩)))
          (by unfold inGrid; omega) (hall x b (by unfold inGrid; omega))
      · have hprev := ih (b + 1) (by unfold inGrid; omega) (by omega)
        exact Region.step hprev (Or.inr (Or.inr (Or.inr ⟨rfl, by omega⟩)))
          (by unfold inGrid; omega) (hall x b (by unfold inGrid; omega))
  exact hcol _ y hxy rfl

/-- **C1.** On a supported grid (`gridSize` one of 8, 16, 32, 64,
`pixelSize = 512 / gridSize`), for every canvas, every seed cell of the grid
and every `newColor` whose colour differs from the colour sampled at the
centre of the seed cell, `floodFill(sx, sy, newColor)` paints, by one
`drawPixel` call each, exactly the cells of the 4-connected region of the
seed (cells reached from the seed through up/down/left/right neighbours of
the grid whose centre colour in the initial canvas is the seed's): every
pixel whose cell is in the region ends with `newColor`, every other pixel is
unchanged, and painted cells lie in the grid and had the seed's colour. On a
canvas uniformly coloured `c0` the painted cells are all `gridSize * gridSize`
cells and every pixel ends with `newColor`. -/
theorem floodFill_paints_region (s : Editor) (sx sy : Int) (newColor : ColorStr)
    (hG : Supported s.gridSize) (hp : s.pixelSize = 512 / s.gridSize)
    (hseed : inGrid s sx sy)
    (hne : newColor.channels ≠ (getPixelColor s sx sy).channels) :
    ∃ painted : List (Int × Int),
      painted.Nodup
      ∧ (floodFill s sx sy newColor).calls
          = s.calls ++ Call.floodFill sx sy newColor :: painted.map (paintCall newColor)
      ∧ (∀ x y, (x, y) ∈ painted ↔ Region s sx sy x y)
      ∧ (∀ x y, (x, y) ∈ painted →
          inGrid s x y ∧ getPixelColor s x y = getPixelColor s sx sy)
      ∧ (∀ px py, inCanvas px py →
          Region s sx sy (px / (s.pixelSize : Int)) (py / (s.pixelSize : Int)) →
          (floodFill s sx sy newColor).canvas px py = newColor.toPixel)
      ∧ (∀ px py, inCanvas px py →
          ¬ Region s sx sy (px / (s.pixelSize : Int)) (py / (s.pixelSize : Int)) →
          (floodFill s sx sy newColor).canvas px py = s.canvas px py)
      ∧ (∀ c0 : Pixel, (∀ px py, inCanvas px py → s.canvas px py = c0) →
          painted.length = s.gridSize * s.gridSize
          ∧ ∀ px py, inCanvas px py →
              (floodFill s sx sy newColor).canvas px py = newColor.toPixel) := by
  obtain ⟨hpos, hGp, -⟩ := supported_pixelSize hG hp
  have hguard : getPixelColor s sx sy ≠ newColor := by
    intro h; exact hne (by rw [h])
  have hff := floodFill_eq s sx sy newColor
  rw [if_neg hguard] at hff
  generalize hs0 : ({ s with calls := s.calls ++ [Call.floodFill sx sy newColor] } : Editor)
    = s0 at hff
  have hreg : ∀ x y, Region s0 sx sy x y ↔ Region s sx sy x y := by
    intro x y; rw [← hs0]; exact Region.logged_iff s _ sx sy x y
  have hcan0 : s0.canvas = s.canvas := by rw [← hs0]
  have hps0 : s0.pixelSize = s.pixelSize := by rw [← hs0]
  have hgs0 : s0.gridSize = s.gridSize := by rw [← hs0]
  have hcalls0 : s0.calls = s.calls ++ [Call.floodFill sx sy newColor] := by rw [← hs0]
  have hseed0 : inGrid s0 sx sy := by unfold inGrid at hseed ⊢; rw [hgs0]; exact hseed
  have hpos0 : 0 < s0.pixelSize := by omega
  have hGp0 : s0.gridSize * s0.pixelSize = 512 := by rw [hps0, hgs0]; exact hGp
  have hP := floodFillLoop_inv s0 sx sy newColor
  have hR := floodFillLoop_regionInv s0 sx sy newColor hpos0 hGp0 hseed0
  have hV := floodFillLoop_visited_iff s0 sx sy newColor hpos0 hGp0 hseed0
  have hcanvas : ∀ px py, inCanvas px py →
      (floodFill s sx sy newColor).canvas px py =
        if (px / (s.pixelSize : Int), py / (s.pixelSize : Int))
            ∈ (floodFillLoop s0 sx sy newColor).visited then newColor.toPixel
        else s.canvas px py := by
    intro px py hin
    rw [hff]
    have := hR.canvas px py hin
    rw [hps0, hcan0] at this
    exact this
  have hmem : ∀ x y, (x, y) ∈ (floodFillLoop s0 sx sy newColor).visited.reverse ↔
      Region s sx sy x y := by
    intro x y; rw [List.mem_reverse, hV, hreg]
  refine ⟨(floodFillLoop s0 sx sy newColor).visited.reverse, List.nodup_reverse.2 hP.nodup,
    ?_, hmem, ?_, ?_, ?_, ?_⟩
  · rw [hff]
    have hc : (floodFillLoop s0 sx sy newColor).ed.calls = _ := hP.calls
    simp only [hc, hcalls0, List.append_assoc, List.singleton_append]
  · intro x y h
    exact ((hmem x y).1 h).inGrid_color hseed
  · intro px py hin hr
    rw [hcanvas px py hin, if_pos]
    exact (hV _ _).2 ((hreg _ _).2 hr)
  · intro px py hin hr
    rw [hcanvas px py hin, if_neg]
    intro h
    exact hr ((hreg _ _).1 ((hV _ _).1 h))
  · intro c0 hc0
    have hall : ∀ x y, inGrid s x y → getPixelColor s x y = getPixelColor s sx sy := by
      intro x y hxy
      rw [getPixelColor_inGrid s hpos hGp x y hxy, getPixelColor_inGrid s hpos hGp sx sy hseed,
        hc0 _ _ (center_inCanvas s hpos hGp x y hxy),
        hc0 _ _ (center_inCanvas s hpos hGp sx sy hseed)]
    constructor
    · apply cells_length_eq s.gridSize _ (List.nodup_reverse.2 hP.nodup)
      intro c
      obtain ⟨x, y⟩ := c
      rw [hmem x y]
      constructor
      · intro h; exact (h.inGrid_color hseed).1
      · intro h; exact Region.all hseed hall x y h
    · intro px py hin
      rw [hcanvas px py hin, if_pos]
      apply (hV _ _).2
      apply (hreg _ _).2
      exact Region.all hseed hall _ _ ((inCanvas_iff_inGrid s hpos hGp px py).1 hin)

/-- **C9.** For every editor (any canvas, grid size and pixel size), every
seed, in the grid or not, and every `newColor`, also one that paints the
colour of the target: the loop of `floodFill` empties its stack within the
passes granted (more passes give the same result), so `floodFill` returns;
the `drawPixel` calls made during the call are one per entry of a list of
pairwise distinct cells, all inside `[0, gridSize) x [0, gridSize)`, so at
most `gridSize * gridSize` cells are painted and none twice. -/
theorem floodFill_terminates_painting_once (s : Editor) (startX startY : Int)
    (newColor : ColorStr) :
    (floodFillLoop { s with calls := s.calls ++ [Call.floodFill startX startY newColor] }
        startX startY newColor).stack = []
      ∧ (∀ extra,
          fillLoop (getPixelColor s startX startY) newColor (fillFuel s + extra)
            ⟨{ s with calls := s.calls ++ [Call.floodFill startX startY newColor] },
              [(startX, startY)], []⟩
          = floodFillLoop { s with calls := s.calls ++ [Call.floodFill startX startY newColor] }
              startX startY newColor)
      ∧ ∃ painted : List (Int × Int),
          (floodFill s startX startY newColor).calls
            = s.calls ++ Call.floodFill startX startY newColor
                :: painted.map (paintCall newColor)
          ∧ painted.Nodup
          ∧ painted.length ≤ s.gridSize * s.gridSize
          ∧ ∀ c ∈ painted, inGrid s c.1 c.2 := by
  have hE := floodFillLoop_stack_empty
    { s with calls := s.calls ++ [Call.floodFill startX startY newColor] } startX startY newColor
  exact ⟨hE, fun extra => fillLoop_fuel_mono _ newColor _ _ hE extra,
    floodFill_calls s startX startY newColor⟩

theorem floodFill_paints_region_witness :
    ∃ painted : List (Int × Int),
      painted.length = 16 * 16
      ∧ (∀ x y, (x, y) ∈ painted ↔ Region (construct fun _ => none) 7 9 x y)
      ∧ ∀ px py, inCanvas px py →
          (floodFill (construct fun _ => none) 7 9 (.hex 0 0 255)).canvas px py
            = (ColorStr.hex 0 0 255).toPixel := by
  obtain ⟨painted, -, -, hmem, -, -, -, huni⟩ :=
    floodFill_paints_region (construct fun _ => none) 7 9 (.hex 0 0 255)
      (by decide) (by decide) (by decide) (by decide)
  have h := huni white.toPixel (by
    intro px py hin
    simp only [construct, setupCanvas, fillRect]
    rw [if_pos]
    unfold inCanvas at hin ⊢
    omega)
  exact ⟨painted, h.1, hmem, h.2⟩

/-! ## Filling with the colour already there -/

/-- When `newColor` is the very string that `getPixelColor` returns for the
seed, the guard of `floodFill` fires and nothing but the call log changes. -/
theorem floodFill_same_string (s : Editor) (x y : Int) :
    floodFill s x y (getPixelColor s x y)
      = { s with calls := s.calls ++ [Call.floodFill x y (getPixelColor s x y)] } := by
  rw [floodFill_eq, if_pos rfl]

/-- The editor `redCentre` is what the page holds after the events: grid size
64 selected, mouse pressed at `(20, 20)` with the pencil and the default red,
mouse released, grid size 16 selected. -/
theorem redCentre_reached :
    run (construct fun _ => none)
      [Event.gridSize 64, Event.mousedown 20 20, Event.mouseup, Event.gridSize 16]
      = redCentre := by
  have hcell : ⌊(20 : ℚ) / ((512 / 64 : ℕ) : ℚ)⌋ = 2 := by
    rw [Int.floor_eq_iff]; norm_num
  simp only [run, List.foldl, handle, handleDraw, gridSizeChange, construct, setupCanvas,
    redCentre, hcell]
  rfl

/-- Through the page: on `redCentre`, selecting the fill tool (the colour is
still the default `'#ff0000'`) and pressing the mouse at `(5, 5)` turns raster
pixel `(0, 0)` from white to red, although cell `(0, 0)` already samples red. -/
theorem fill_event_same_color_repaints :
    (run redCentre [Event.selectTool .fill, Event.mousedown 5 5]).canvas 0 0
        = (ColorStr.hex 255 0 0).toPixel
      ∧ redCentre.canvas 0 0 = white.toPixel := by
  have hcell : ⌊(5 : ℚ) / ((512 / 16 : ℕ) : ℚ)⌋ = 0 := by
    rw [Int.floor_eq_iff]; norm_num
  have hrun : run redCentre [Event.selectTool .fill, Event.mousedown 5 5]
      = { floodFill { redCentre with currentTool := .fill, isDrawing := true } 0 0 (.hex 255 0 0)
          with hasFilled := true } := by
    simp only [run, List.foldl, handle, handleDraw, gridSizeChange, construct, setupCanvas,
      redCentre, drawPixel, hcell]
    rfl
  rw [hrun]
  decide

/-- **C2 (evaluation at the failing input).** On `redCentre`, a supported 16
grid, the seed cell `(0, 0)` samples red, `newColor = '#ff0000'` is the same
colour, and yet `floodFill(0, 0, '#ff0000')` repaints the cell: the raster
pixel `(0, 0)` turns from white to red. The guard compares the string
`rgb(255, 0, 0)` with the string `#ff0000`. -/
theorem floodFill_same_color_repaints :
    Supported redCentre.gridSize
      ∧ redCentre.pixelSize = 512 / redCentre.gridSize
      ∧ inGrid redCentre 0 0
      ∧ (getPixelColor redCentre 0 0).channels = (ColorStr.hex 255 0 0).channels
      ∧ getPixelColor redCentre 0 0 ≠ ColorStr.hex 255 0 0
      ∧ inCanvas 0 0
      ∧ redCentre.canvas 0 0 = white.toPixel
      ∧ (floodFill redCentre 0 0 (.hex 255 0 0)).canvas 0 0 = (ColorStr.hex 255 0 0).toPixel
      ∧ (floodFill redCentre 0 0 (.hex 255 0 0)).canvas 0 0 ≠ redCentre.canvas 0 0 := by
  decide

/-! ## Changing the grid size -/

/-- **C7 (counterexample).** After a red pencil stroke on cell `(0, 0)` of the
fresh editor, the grid-size handler run with the new size 8 leaves raster
pixel `(0, 0)` red: the canvas has not been cleared to white. -/
theorem gridSizeChange_not_cleared :
    ¬ (∀ px py, inCanvas px py →
        (gridSizeChange (drawPixel (construct fun _ => none) 0 0 (.hex 255 0 0)) 8).canvas px py
          = white.toPixel) := by
  intro h
  exact absurd (h 0 0 (by decide)) (by decide)

/-- **C7 (amended).** The grid-size handler does not touch the canvas: after
it runs with any new grid size every raster pixel is what it was before; the
handler sets `gridSize` to the new value and `pixelSize` to `512 / gridSize`
and changes nothing else. -/
theorem gridSizeChange_keeps_canvas (s : Editor) (value : Nat) :
    (∀ px py, (gridSizeChange s value).canvas px py = s.canvas px py)
      ∧ gridSizeChange s value = { s with gridSize := value, pixelSize := 512 / value } :=
  ⟨fun _ _ => rfl, rfl⟩

/-! ## The store of artworks -/

/-- An own property is what a read yields. -/
theorem ArtworkStore.get_own (st : ArtworkStore) (name : String) (a : Artwork)
    (h : st.own name = some a) : st.get name = .record a := by
  unfold ArtworkStore.get
  rw [h]

/-- While the prototype is `Object.prototype`, only own properties read as
records. -/
theorem ArtworkStore.own_of_get (st : ArtworkStore) (name : String) (a : Artwork)
    (hproto : st.proto = none) (h : st.get name = .record a) : st.own name = some a := by
  unfold ArtworkStore.get at h
  cases hown : st.own name with
  | some r =>
    rw [hown] at h
    cases h
    rfl
  | none =>
    rw [hown, hproto] at h
    simp only at h
    split at h <;> cases h

/-- A record just assigned under a name is what a read of that name yields,
also for the key `__proto__`. -/
theorem ArtworkStore.get_set_self (st : ArtworkStore) (name : String) (a : Artwork) :
    (st.set name a).get name = .record a := by
  unfold ArtworkStore.set
  by_cases h : name = "__proto__" ∧ (st.own name).isNone = true
  · rw [if_pos h]
    have hnone : st.own name = none := Option.isNone_iff_eq_none.1 h.2
    simp only [ArtworkStore.get, hnone, if_pos h.1]
  · rw [if_neg h]
    simp only [ArtworkStore.get, if_true]

/-- After an assignment, a read that yields a record yields the record
assigned or a record that a read yielded before. -/
theorem ArtworkStore.get_set_record (st : ArtworkStore) (name : String) (a : Artwork)
    (other : String) (b : Artwork) (h : (st.set name a).get other = .record b) :
    b = a ∨ st.get other = .record b := by
  unfold ArtworkStore.set at h
  by_cases hc : name = "__proto__" ∧ (st.own name).isNone = true
  · rw [if_pos hc] at h
    cases hown : st.own other with
    | some r =>
      right
      simp only [ArtworkStore.get, hown] at h ⊢
      exact h
    | none =>
      left
      simp only [ArtworkStore.get, hown] at h
      split at h
      · cases h; rfl
      · split at h
        · cases h
        · split at h
          · cases h
          · split at h
            · cases h
            · split at h <;> cases h
  · rw [if_neg hc] at h
    by_cases hn : other = name
    · left
      simp only [ArtworkStore.get, if_pos hn] at h
      cases h; rfl
    · right
      simp only [ArtworkStore.get, if_neg hn] at h
      exact h

/-- A read that does not yield a record leaves `loadArtwork` without effect. -/
theorem loadArtwork_no_record (s : Editor) (name : String) (confirmed : Bool)
    (h : ∀ a, s.savedArtworks.get name ≠ .record a) : loadArtwork s name confirmed = s := by
  unfold loadArtwork
  split
  · rfl
  · rfl
  · rename_i a ha
    exact absurd ha (h a)

/-- A read that yields a record makes a confirmed `loadArtwork` draw it. -/
theorem loadArtwork_record (s : Editor) (name : String) (a : Artwork)
    (h : s.savedArtworks.get name = .record a) :
    loadArtwork s name true
      = { s with
          canvas := drawImage (clearRect s.canvas 0 0 512 512) a.imageData
          gridSize := a.gridSize
          pixelSize := 512 / a.gridSize } := by
  unfold loadArtwork
  rw [h]
  rfl

/-- On the fresh store the name `constructor` reads the inherited function, so
`saveArtwork` asks for the overwrite and a decline stores nothing. -/
theorem saveArtwork_constructor_declined :
    ((construct fun _ => none).savedArtworks.get (artworkName "constructor" 0)).truthy = true
      ∧ saveArtwork (construct fun _ => none) "constructor" 0 "noon" false
          = construct fun _ => none := by
  have h : ((construct fun _ => none).savedArtworks.get (artworkName "constructor" 0)).truthy
      = true := by decide
  refine ⟨h, ?_⟩
  unfold saveArtwork
  exact if_pos ⟨h, rfl⟩

/-- A name padded with a no-break space and an ideographic space is trimmed
to the bare name, as is one padded with blanks and a tab. -/
theorem artworkName_padded :
    artworkName " cat　" 0 = "cat" ∧ artworkName " \tcat \n" 0 = "cat"
      ∧ artworkName "   " 7 = "Artwork_7" := by
  decide

/-! ## Confirmation dialogs -/

/-- **C8.** A declined confirmation leaves the whole editor (canvas,
`gridSize`, `pixelSize`, `savedArtworks` with all its records, and every other
field) unchanged: for new-artwork, for clear, for a save under a name for
which the overwrite dialog is asked (the read of the name is truthy, as it is
for every name already stored as an own property), and for a load; and
`loadArtwork` of a name whose read yields no record changes nothing, whatever
the answer (so for every name that is no own property, the key `__proto__`
excepted once a record has been installed as prototype). -/
theorem declined_confirmation_changes_nothing (s : Editor) :
    newGrid s false = s
      ∧ clearCanvas s false = s
      ∧ (∀ input time stamp, (s.savedArtworks.get (artworkName input time)).truthy = true →
          saveArtwork s input time stamp false = s)
      ∧ (∀ input time stamp, (s.savedArtworks.own (artworkName input time)).isSome = true →
          saveArtwork s input time stamp false = s)
      ∧ (∀ name, loadArtwork s name false = s)
      ∧ (∀ name confirmed, (∀ a, s.savedArtworks.get name ≠ .record a) →
          loadArtwork s name confirmed = s)
      ∧ (∀ name confirmed, s.savedArtworks.own name = none →
          (name = "__proto__" → s.savedArtworks.proto = none) →
          loadArtwork s name confirmed = s) := by
  refine ⟨rfl, rfl, ?_, ?_, ?_, ?_, ?_⟩
  · intro input time stamp h
    unfold saveArtwork
    exact if_pos ⟨h, rfl⟩
  · intro input time stamp h
    obtain ⟨a, ha⟩ := Option.isSome_iff_exists.1 h
    have hget := s.savedArtworks.get_own _ a ha
    unfold saveArtwork
    refine if_pos ⟨?_, rfl⟩
    rw [hget]
    rfl
  · intro name
    unfold loadArtwork
    split
    · rfl
    · rfl
    · rfl
  · intro name confirmed h
    exact loadArtwork_no_record s name confirmed h
  · intro name confirmed hown hproto
    apply loadArtwork_no_record
    intro a ha
    unfold ArtworkStore.get at ha
    rw [hown] at ha
    simp only at ha
    cases hp : s.savedArtworks.proto with
    | none =>
      rw [hp] at ha
      simp only at ha
      split at ha <;> cases ha
    | some r =>
      rw [hp] at ha
      simp only at ha
      split at ha
      · rename_i hn
        rw [hproto hn] at hp
        cases hp
      · split at ha
        · cases ha
        · split at ha
          · cases ha
          · split at ha
            · cases ha
            · split at ha <;> cases ha

theorem declined_confirmation_changes_nothing_witness :
    (withCat.savedArtworks.get (artworkName "cat" 0)).truthy = true
      ∧ saveArtwork withCat "cat" 0 "later" false = withCat
      ∧ (∀ a, (construct fun _ => none).savedArtworks.get "dog" ≠ .record a)
      ∧ loadArtwork (construct fun _ => none) "dog" true = construct fun _ => none :=
  have h : (withCat.savedArtworks.get (artworkName "cat" 0)).truthy = true := by decide
  have hdog : ∀ a, (construct fun _ => none).savedArtworks.get "dog" ≠ .record a := by
    intro a ha
    have ht : ((construct fun _ => none).savedArtworks.get "dog").truthy = false := by decide
    rw [ha] at ht
    cases ht
  ⟨h, (declined_confirmation_changes_nothing withCat).2.2.1 "cat" 0 "later" h, hdog,
    (declined_confirmation_changes_nothing (construct fun _ => none)).2.2.2.2.2.1 "dog" true
      hdog⟩

/-! ## Save and load -/

/-- **C4.** Round trip. Let `saveArtwork` store the canvas of `s` under the
name `artworkName input time`: the read of that name is falsy, so that no
dialog is asked, or the overwrite was confirmed. Then for every editor `mid`
that holds the resulting `savedArtworks`, whatever its canvas and grid size,
`loadArtwork` of that name with the confirmation accepted yields a canvas
equal to the saved one at every pixel of the bitmap, and restores `gridSize`,
with `pixelSize = 512 / gridSize` when the saved grid size is one of 8, 16, 32,
64. The name may be any text, also one that a plain object inherits
(`constructor`, `__proto__`) or one padded with Unicode white space. The PNG
codec is taken lossless: the record carries the bitmap. -/
theorem save_then_load_roundtrip (s mid : Editor) (input : String) (time : Nat)
    (stamp : String) (confirmed : Bool)
    (hstored : (s.savedArtworks.get (artworkName input time)).truthy = false
      ∨ confirmed = true)
    (hmid : mid.savedArtworks = (saveArtwork s input time stamp confirmed).savedArtworks) :
    SameRaster (loadArtwork mid (artworkName input time) true).canvas s.canvas
      ∧ (loadArtwork mid (artworkName input time) true).gridSize = s.gridSize
      ∧ (Supported s.gridSize →
          (loadArtwork mid (artworkName input time) true).pixelSize = 512 / s.gridSize
          ∧ (loadArtwork mid (artworkName input time) true).gridSize
              * (loadArtwork mid (artworkName input time) true).pixelSize = 512) := by
  have hsave : (saveArtwork s input time stamp confirmed).savedArtworks
      = s.savedArtworks.set (artworkName input time)
          { imageData := s.canvas, gridSize := s.gridSize, savedAt := stamp } := by
    unfold saveArtwork
    simp only
    rw [if_neg]
    rintro ⟨h1, h2⟩
    rcases hstored with h | h
    · rw [h] at h1; cases h1
    · rw [h] at h2; cases h2
  have hrec : mid.savedArtworks.get (artworkName input time)
      = .record { imageData := s.canvas, gridSize := s.gridSize, savedAt := stamp } := by
    rw [hmid, hsave]
    exact ArtworkStore.get_set_self _ _ _
  rw [loadArtwork_record mid _ _ hrec]
  refine ⟨?_, rfl, fun hs => ⟨rfl, (supported_div _ hs).1⟩⟩
  intro px py hin
  have hin2 : inCanvas px py ∧ (0 : Int) ≤ px ∧ px < 0 + 512 ∧ (0 : Int) ≤ py ∧ py < 0 + 512 := by
    unfold inCanvas at hin ⊢; omega
  simp only [drawImage, clearRect, fillRect, if_pos hin, if_pos hin2, sourceOver,
    transparentBlack, or_true, if_true]

theorem save_then_load_roundtrip_witness :
    ((drawPixel (construct fun _ => none) 4 4 (.hex 0 255 0)).savedArtworks.get
        (artworkName " cat " 0)).truthy = false
      ∧ SameRaster
        (loadArtwork
          (drawPixel
            (gridSizeChange
              (saveArtwork (drawPixel (construct fun _ => none) 4 4 (.hex 0 255 0))
                " cat " 0 "noon" false) 8)
            1 1 white)
          (artworkName " cat " 0) true).canvas
        (drawPixel (construct fun _ => none) 4 4 (.hex 0 255 0)).canvas :=
  have h : ((drawPixel (construct fun _ => none) 4 4 (.hex 0 255 0)).savedArtworks.get
      (artworkName " cat " 0)).truthy = false := by decide
  ⟨h,
    (save_then_load_roundtrip (drawPixel (construct fun _ => none) 4 4 (.hex 0 255 0))
      (drawPixel
        (gridSizeChange
          (saveArtwork (drawPixel (construct fun _ => none) 4 4 (.hex 0 255 0))
            " cat " 0 "noon" false) 8)
        1 1 white)
      " cat " 0 "noon" false (Or.inl h) rfl).1⟩

/-! ## Pointer events -/

/-- Apart from the bitmap, the call log and `hasFilled`, `handleDraw` changes
no field of the editor. -/
theorem handleDraw_frame (s : Editor) (x y : ℚ) :
    (handleDraw s x y).gridSize = s.gridSize
      ∧ (handleDraw s x y).pixelSize = s.pixelSize
      ∧ (handleDraw s x y).savedArtworks = s.savedArtworks
      ∧ (handleDraw s x y).isDrawing = s.isDrawing := by
  unfold handleDraw
  split
  · exact ⟨rfl, rfl, rfl, rfl⟩
  · simp only
    split
    · split
      · exact ⟨rfl, rfl, rfl, rfl⟩
      · exact ⟨rfl, rfl, rfl, rfl⟩
      · split
        · have h := floodFill_frame s ⌊x / (s.pixelSize : ℚ)⌋ ⌊y / (s.pixelSize : ℚ)⌋
            s.currentColor
          exact ⟨h.1, h.2.1, h.2.2.1, h.2.2.2.2.2⟩
        · exact ⟨rfl, rfl, rfl, rfl⟩
    · exact ⟨rfl, rfl, rfl, rfl⟩

/-- **C6.** `handleDraw` maps the pointer position `(x, y)` to the cell
`(floor(x / pixelSize), floor(y / pixelSize))`. If that cell is outside
`[0, gridSize) x [0, gridSize)` the editor is returned as it was, for every
tool: the canvas is unchanged and no call of `drawPixel` or `floodFill` is
logged. If it is inside (and `pixelSize` is positive), the tool acts on that
cell, and the block of that cell contains `(x, y)`. -/
theorem handleDraw_cell (s : Editor) (x y : ℚ) :
    (¬ inGrid s ⌊x / (s.pixelSize : ℚ)⌋ ⌊y / (s.pixelSize : ℚ)⌋ →
        handleDraw s x y = s
        ∧ (handleDraw s x y).canvas = s.canvas
        ∧ (handleDraw s x y).calls = s.calls)
      ∧ (0 < s.pixelSize → inGrid s ⌊x / (s.pixelSize : ℚ)⌋ ⌊y / (s.pixelSize : ℚ)⌋ →
        handleDraw s x y =
            (match s.currentTool with
              | .pencil =>
                drawPixel s ⌊x / (s.pixelSize : ℚ)⌋ ⌊y / (s.pixelSize : ℚ)⌋ s.currentColor
              | .eraser => drawPixel s ⌊x / (s.pixelSize : ℚ)⌋ ⌊y / (s.pixelSize : ℚ)⌋ white
              | .fill =>
                if s.hasFilled = true then s
                else
                  { floodFill s ⌊x / (s.pixelSize : ℚ)⌋ ⌊y / (s.pixelSize : ℚ)⌋ s.currentColor
                    with hasFilled := true })
          ∧ (⌊x / (s.pixelSize : ℚ)⌋ : ℚ) * (s.pixelSize : ℚ) ≤ x
          ∧ x < ((⌊x / (s.pixelSize : ℚ)⌋ : ℚ) + 1) * (s.pixelSize : ℚ)
          ∧ (⌊y / (s.pixelSize : ℚ)⌋ : ℚ) * (s.pixelSize : ℚ) ≤ y
          ∧ y < ((⌊y / (s.pixelSize : ℚ)⌋ : ℚ) + 1) * (s.pixelSize : ℚ)) := by
  constructor
  · intro hout
    have h : handleDraw s x y = s := by
      unfold handleDraw
      split
      · rfl
      · simp only
        rw [if_neg]
        intro hin
        exact hout (by unfold inGrid; omega)
    rw [h]
    exact ⟨rfl, rfl, rfl⟩
  · intro hp hin
    have hpq : (0 : ℚ) < (s.pixelSize : ℚ) := by exact_mod_cast hp
    refine ⟨?_, ?_, ?_, ?_, ?_⟩
    · unfold handleDraw
      rw [if_neg (by omega)]
      simp only
      rw [if_pos (by unfold inGrid at hin; omega)]
      cases s.currentTool with
      | pencil => rfl
      | eraser => rfl
      | fill =>
        simp only
        cases s.hasFilled <;> simp
    · exact (le_div_iff₀ hpq).1 (Int.floor_le _)
    · exact (div_lt_iff₀ hpq).1 (Int.lt_floor_add_one _)
    · exact (le_div_iff₀ hpq).1 (Int.floor_le _)
    · exact (div_lt_iff₀ hpq).1 (Int.lt_floor_add_one _)

theorem handleDraw_cell_witness :
    (¬ inGrid (construct fun _ => none) ⌊(-5 : ℚ) / ((construct fun _ => none).pixelSize : ℚ)⌋
        ⌊(10 : ℚ) / ((construct fun _ => none).pixelSize : ℚ)⌋)
      ∧ handleDraw (construct fun _ => none) (-5) 10 = construct fun _ => none := by
  have hx : ⌊(-5 : ℚ) / ((construct fun _ => none).pixelSize : ℚ)⌋ = -1 := by
    rw [Int.floor_eq_iff]
    simp only [construct, setupCanvas]
    norm_num
  have hout : ¬ inGrid (construct fun _ => none)
      ⌊(-5 : ℚ) / ((construct fun _ => none).pixelSize : ℚ)⌋
      ⌊(10 : ℚ) / ((construct fun _ => none).pixelSize : ℚ)⌋ := by
    rw [hx]
    unfold inGrid
    omega
  exact ⟨hout, ((handleDraw_cell (construct fun _ => none) (-5) 10).1 hout).1⟩

/-! ## The invariant `gridSize * pixelSize = 512` -/

theorem GridInv.afterEvent {s : Editor} (h : GridInv s) (e : Event) (he : e.offered) :
    GridInv (handle s e) := by
  obtain ⟨h1, h2, h3, h4⟩ := h
  cases e with
  | mousedown x y =>
    have hf := handleDraw_frame { s with isDrawing := true } x y
    simp only [PixelArtEditor.handle, GridInv, hf.1, hf.2.1, hf.2.2.1]
    exact ⟨h1, h2, h3, h4⟩
  | mousemove x y =>
    simp only [PixelArtEditor.handle]
    split
    · have hf := handleDraw_frame s x y
      simp only [GridInv, hf.1, hf.2.1, hf.2.2.1]
      exact ⟨h1, h2, h3, h4⟩
    · exact ⟨h1, h2, h3, h4⟩
  | mouseup => exact ⟨h1, h2, h3, h4⟩
  | selectTool tool => exact ⟨h1, h2, h3, h4⟩
  | pickColor color => exact ⟨h1, h2, h3, h4⟩
  | addColor => exact ⟨h1, h2, h3, h4⟩
  | gridSize value =>
    have hv : Supported value := he
    exact ⟨hv, (supported_div value hv).1, (supported_div value hv).2, h4⟩
  | newGrid confirmed =>
    cases confirmed
    · exact ⟨h1, h2, h3, h4⟩
    · exact ⟨h1, h2, h3, h4⟩
  | clear confirmed =>
    cases confirmed
    · exact ⟨h1, h2, h3, h4⟩
    · exact ⟨h1, h2, h3, h4⟩
  | save input time stamp confirmed =>
    simp only [PixelArtEditor.handle, saveArtwork]
    split
    · exact ⟨h1, h2, h3, h4⟩
    · refine ⟨h1, h2, h3, ?_⟩
      intro name a ha
      rcases ArtworkStore.get_set_record _ _ _ _ _ ha with h | h
      · rw [h]; exact h1
      · exact h4 name a h
  | exportPNG => exact ⟨h1, h2, h3, h4⟩
  | load name confirmed =>
    simp only [PixelArtEditor.handle, loadArtwork]
    split
    · exact ⟨h1, h2, h3, h4⟩
    · exact ⟨h1, h2, h3, h4⟩
    · rename_i a ha
      split
      · have hs := h4 name a ha
        exact ⟨hs, (supported_div _ hs).1, (supported_div _ hs).2, h4⟩
      · exact ⟨h1, h2, h3, h4⟩

theorem GridInv.afterRun {s : Editor} (h : GridInv s) (events : List Event)
    (he : ∀ e ∈ events, e.offered) : GridInv (run s events) := by
  induction events generalizing s with
  | nil => exact h
  | cons e rest ih =>
    exact ih (h.afterEvent e (he e (List.mem_cons_self _ _)))
      (fun e2 h2 => he e2 (List.mem_cons_of_mem _ h2))

/-- **C5.** `gridSize * pixelSize = 512` is an invariant of the editor for the
supported grid sizes 8, 16, 32, 64. It holds after construction (16 and 32).
The grid-size handler and `loadArtwork` (of an own property, and of any name
that reads as a record) set `pixelSize = 512 / gridSize`, which
for a supported size is exact (`512 % gridSize = 0`) and re-establishes the
product. No other event changes `gridSize` or `pixelSize`. Hence after every
sequence of events whose grid-size selections are supported sizes, starting
from a store whose records carry supported sizes, the invariant holds. -/
theorem gridSize_pixelSize_invariant (stored : String → Option Artwork) :
    ((construct stored).gridSize = 16 ∧ (construct stored).pixelSize = 32
        ∧ (construct stored).gridSize * (construct stored).pixelSize = 512)
      ∧ (∀ s value, Supported value →
          (gridSizeChange s value).gridSize = value
          ∧ (gridSizeChange s value).pixelSize = 512 / value
          ∧ 512 % value = 0
          ∧ (gridSizeChange s value).gridSize * (gridSizeChange s value).pixelSize = 512)
      ∧ (∀ s name a, s.savedArtworks.own name = some a → Supported a.gridSize →
          (loadArtwork s name true).gridSize = a.gridSize
          ∧ (loadArtwork s name true).pixelSize = 512 / a.gridSize
          ∧ 512 % a.gridSize = 0
          ∧ (loadArtwork s name true).gridSize * (loadArtwork s name true).pixelSize = 512)
      ∧ (∀ s name a, s.savedArtworks.get name = .record a → Supported a.gridSize →
          (loadArtwork s name true).gridSize = a.gridSize
          ∧ (loadArtwork s name true).pixelSize = 512 / a.gridSize
          ∧ 512 % a.gridSize = 0
          ∧ (loadArtwork s name true).gridSize * (loadArtwork s name true).pixelSize = 512)
      ∧ (∀ s e, (∀ value, e ≠ Event.gridSize value) → (∀ name, e ≠ Event.load name true) →
          (handle s e).gridSize = s.gridSize ∧ (handle s e).pixelSize = s.pixelSize)
      ∧ ((∀ name a, stored name = some a → Supported a.gridSize) →
          ∀ events : List Event, (∀ e ∈ events, e.offered) →
            Supported (run (construct stored) events).gridSize
            ∧ (run (construct stored) events).gridSize
                * (run (construct stored) events).pixelSize = 512) := by
  have hrecord : ∀ (s : Editor) (name : String) (a : Artwork),
      s.savedArtworks.get name = .record a → Supported a.gridSize →
      (loadArtwork s name true).gridSize = a.gridSize
      ∧ (loadArtwork s name true).pixelSize = 512 / a.gridSize
      ∧ 512 % a.gridSize = 0
      ∧ (loadArtwork s name true).gridSize * (loadArtwork s name true).pixelSize = 512 := by
    intro s name a ha hs
    rw [loadArtwork_record s name a ha]
    exact ⟨rfl, rfl, (supported_div _ hs).2, (supported_div _ hs).1⟩
  refine ⟨⟨rfl, rfl, rfl⟩, ?_, ?_, hrecord, ?_, ?_⟩
  · intro s value hv
    exact ⟨rfl, rfl, (supported_div value hv).2, (supported_div value hv).1⟩
  · intro s name a ha hs
    exact hrecord s name a (s.savedArtworks.get_own name a ha) hs
  · intro s e hg hl
    cases e with
    | mousedown x y =>
      have hf := handleDraw_frame { s with isDrawing := true } x y
      exact ⟨hf.1, hf.2.1⟩
    | mousemove x y =>
      simp only [PixelArtEditor.handle]
      split
      · have hf := handleDraw_frame s x y
        exact ⟨hf.1, hf.2.1⟩
      · exact ⟨rfl, rfl⟩
    | mouseup => exact ⟨rfl, rfl⟩
    | selectTool tool => exact ⟨rfl, rfl⟩
    | pickColor color => exact ⟨rfl, rfl⟩
    | addColor => exact ⟨rfl, rfl⟩
    | gridSize value => exact absurd rfl (hg value)
    | newGrid confirmed => cases confirmed <;> exact ⟨rfl, rfl⟩
    | clear confirmed => cases confirmed <;> exact ⟨rfl, rfl⟩
    | save input time stamp confirmed =>
      simp only [PixelArtEditor.handle, saveArtwork]
      split <;> exact ⟨rfl, rfl⟩
    | exportPNG => exact ⟨rfl, rfl⟩
    | load name confirmed =>
      cases confirmed
      · simp only [PixelArtEditor.handle, loadArtwork]
        split <;> exact ⟨rfl, rfl⟩
      · exact absurd rfl (hl name)
  · intro hstored events hev
    have h0 : GridInv (construct stored) :=
      ⟨Or.inr (Or.inl rfl), rfl, (by decide : 512 % 16 = 0),
        fun name a ha => hstored name a
          (ArtworkStore.own_of_get (construct stored).savedArtworks name a rfl ha)⟩
    have h := h0.afterRun events hev
    exact ⟨h.1, h.2.1⟩

theorem gridSize_pixelSize_invariant_witness :
    (gridSizeChange (construct fun _ => none) 64).gridSize
        * (gridSizeChange (construct fun _ => none) 64).pixelSize = 512
      ∧ (run (construct fun _ => none)
            [Event.gridSize 8, Event.save "cat" 0 "noon" true, Event.gridSize 32,
              Event.load "cat" true]).gridSize
          * (run (construct fun _ => none)
            [Event.gridSize 8, Event.save "cat" 0 "noon" true, Event.gridSize 32,
              Event.load "cat" true]).pixelSize = 512 :=
  ⟨((gridSize_pixelSize_invariant fun _ => none).2.1 (construct fun _ => none) 64
      (by decide)).2.2.2,
    ((gridSize_pixelSize_invariant fun _ => none).2.2.2.2.2 (by intro name a h; cases h)
      [Event.gridSize 8, Event.save "cat" 0 "noon" true, Event.gridSize 32,
        Event.load "cat" true]
      (by
        intro e he
        simp only [List.mem_cons, List.mem_singleton, List.not_mem_nil, or_false] at he
        rcases he with rfl | rfl | rfl | rfl
        · exact (by decide : Supported 8)
        · exact True.intro
        · exact (by decide : Supported 32)
        · exact True.intro)).2⟩

/-! ## The `hasFilled` flag -/

theorem countP_paintCalls (n : ColorStr) (l : List (Int × Int)) :
    (l.map (paintCall n)).countP Call.isFloodFill = 0 := by
  induction l with
  | nil => rfl
  | cons c rest ih => simp [paintCall, Call.isFloodFill]

theorem fillCount_floodFill (s : Editor) (x y : Int) (n : ColorStr) :
    fillCount (floodFill s x y n) = fillCount s + 1 := by
  obtain ⟨painted, hc, -⟩ := floodFill_calls s x y n
  unfold fillCount
  rw [hc, List.countP_append, List.countP_cons, countP_paintCalls]
  simp [Call.isFloodFill]

theorem handleDraw_filled (s : Editor) (x y : ℚ) (h : s.hasFilled = true) :
    (handleDraw s x y).hasFilled = true
      ∧ (s.currentTool = .fill → handleDraw s x y = s) := by
  unfold handleDraw
  split
  · exact ⟨h, fun _ => rfl⟩
  · simp only
    split
    · cases ht : s.currentTool with
      | pencil => exact ⟨h, fun hc => by cases hc⟩
      | eraser => exact ⟨h, fun hc => by cases hc⟩
      | fill => simp [h]
    · exact ⟨h, fun _ => rfl⟩

theorem LatchInv.afterDraw {s : Editor} (h : LatchInv s) (x y : ℚ) :
    LatchInv (handleDraw s x y) := by
  unfold PixelArtEditor.handleDraw
  split
  · exact h
  · simp only
    split
    · cases ht : s.currentTool with
      | pencil =>
        simp only
        unfold LatchInv fillCount at h ⊢
        simpa [drawPixel, List.countP_append, Call.isFloodFill] using h
      | eraser =>
        simp only
        unfold LatchInv fillCount at h ⊢
        simpa [drawPixel, List.countP_append, Call.isFloodFill] using h
      | fill =>
        simp only
        cases hf : s.hasFilled with
        | true => simpa using h
        | false =>
          have h0 : fillCount s = 0 := by
            unfold LatchInv at h; rw [hf] at h; simpa using h
          have hc := fillCount_floodFill s ⌊x / (s.pixelSize : ℚ)⌋ ⌊y / (s.pixelSize : ℚ)⌋
            s.currentColor
          unfold LatchInv
          unfold fillCount at hc h0 ⊢
          simp only [Bool.not_false, if_true]
          rw [hc, h0]
    · exact h

theorem LatchInv.afterHandle {s : Editor} (h : LatchInv s) (e : Event) :
    LatchInv (handle s e) := by
  cases e with
  | mousedown x y =>
    have h2 : LatchInv { s with isDrawing := true } := h
    exact h2.afterDraw x y
  | mousemove x y =>
    simp only [PixelArtEditor.handle]
    split
    · exact h.afterDraw x y
    · exact h
  | mouseup => exact h
  | selectTool tool => exact h
  | pickColor color => exact h
  | addColor => exact h
  | gridSize value => exact h
  | newGrid confirmed => cases confirmed <;> exact h
  | clear confirmed => cases confirmed <;> exact h
  | save input time stamp confirmed =>
    simp only [PixelArtEditor.handle, saveArtwork]
    split <;> exact h
  | exportPNG => exact h
  | load name confirmed =>
    simp only [PixelArtEditor.handle, loadArtwork]
    split
    · exact h
    · exact h
    · split <;> exact h

theorem LatchInv.afterEvents {s : Editor} (h : LatchInv s) (events : List Event) :
    LatchInv (run s events) := by
  induction events generalizing s with
  | nil => exact h
  | cons e rest ih => exact ih (h.afterHandle e)

theorem handle_keeps_hasFilled (s : Editor) (e : Event) (h : s.hasFilled = true) :
    (handle s e).hasFilled = true := by
  cases e with
  | mousedown x y => exact (handleDraw_filled { s with isDrawing := true } x y h).1
  | mousemove x y =>
    simp only [handle]
    split
    · exact (handleDraw_filled s x y h).1
    · exact h
  | mouseup => exact h
  | selectTool tool => exact h
  | pickColor color => exact h
  | addColor => exact h
  | gridSize value => exact h
  | newGrid confirmed => cases confirmed <;> exact h
  | clear confirmed => cases confirmed <;> exact h
  | save input time stamp confirmed =>
    simp only [handle, saveArtwork]
    split <;> exact h
  | exportPNG => exact h
  | load name confirmed =>
    simp only [handle, loadArtwork]
    split
    · exact h
    · exact h
    · split <;> exact h

/-- **C10.** `hasFilled` is a one-way latch. A `handleDraw` event on a cell of
the grid with the fill tool calls `floodFill` only when `hasFilled` is unset,
and leaves `hasFilled` set in either case (the reset to `false` at the end of
`floodFill` is overwritten); no event unsets the flag. Hence after every
sequence of events on an editor, starting from its construction, `floodFill`
has been called at most once, and once it has been called every further
pointer event with the fill tool leaves the editor, its canvas included,
unchanged but for `isDrawing`. -/
theorem hasFilled_latch :
    (∀ (s : Editor) (x y : ℚ), 0 < s.pixelSize → s.currentTool = .fill →
        inGrid s ⌊x / (s.pixelSize : ℚ)⌋ ⌊y / (s.pixelSize : ℚ)⌋ →
        (handleDraw s x y).hasFilled = true
        ∧ (s.hasFilled = false →
            handleDraw s x y =
              { floodFill s ⌊x / (s.pixelSize : ℚ)⌋ ⌊y / (s.pixelSize : ℚ)⌋ s.currentColor
                with hasFilled := true })
        ∧ (s.hasFilled = true → handleDraw s x y = s))
      ∧ (∀ (s : Editor) (e : Event), s.hasFilled = true → (handle s e).hasFilled = true)
      ∧ (∀ (stored : String → Option Artwork) (events : List Event),
          fillCount (run (construct stored) events) ≤ 1)
      ∧ (∀ (stored : String → Option Artwork) (events later : List Event),
          fillCount (run (construct stored) events) = 1 →
          (run (construct stored) (events ++ later)).currentTool = .fill →
          ∀ x y : ℚ,
            handleDraw (run (construct stored) (events ++ later)) x y
              = run (construct stored) (events ++ later)
            ∧ (handle (run (construct stored) (events ++ later)) (.mousedown x y)).canvas
              = (run (construct stored) (events ++ later)).canvas
            ∧ (handle (run (construct stored) (events ++ later)) (.mousemove x y)).canvas
              = (run (construct stored) (events ++ later)).canvas
            ∧ fillCount (handle (run (construct stored) (events ++ later)) (.mousedown x y))
              = 1) := by
  have hinit : ∀ stored, LatchInv (construct stored) := fun _ => rfl
  refine ⟨?_, handle_keeps_hasFilled, ?_, ?_⟩
  · intro s x y hp htool hin
    have hd : handleDraw s x y =
        if s.hasFilled = true then s
        else { floodFill s ⌊x / (s.pixelSize : ℚ)⌋ ⌊y / (s.pixelSize : ℚ)⌋ s.currentColor
               with hasFilled := true } := by
      unfold handleDraw
      rw [if_neg (by omega)]
      simp only
      rw [if_pos (by unfold inGrid at hin; omega), htool]
      simp only
      cases s.hasFilled <;> simp
    rw [hd]
    cases hf : s.hasFilled with
    | true => simp [hf]
    | false => simp
  · intro stored events
    have h := (hinit stored).afterEvents events
    unfold LatchInv at h
    rw [h]
    split <;> omega
  · intro stored events later hcount htool x y
    have h1 := (hinit stored).afterEvents events
    have hfilled : (run (construct stored) events).hasFilled = true := by
      unfold LatchInv at h1
      rw [hcount] at h1
      by_contra hne
      rw [if_neg hne] at h1
      omega
    have hlater : ∀ (l : List Event) (s : Editor), s.hasFilled = true →
        (run s l).hasFilled = true := by
      intro l
      induction l with
      | nil => intro s hs; exact hs
      | cons e rest ih => intro s hs; exact ih _ (handle_keeps_hasFilled s e hs)
    have hrun : run (construct stored) (events ++ later)
        = run (run (construct stored) events) later := by
      simp [run, List.foldl_append]
    have hf2 : (run (construct stored) (events ++ later)).hasFilled = true := by
      rw [hrun]; exact hlater later _ hfilled
    have hI := (hinit stored).afterEvents (events ++ later)
    generalize run (construct stored) (events ++ later) = s at htool hf2 hI
    have hsame := (handleDraw_filled s x y hf2).2 htool
    have hdown : handle s (.mousedown x y) = { s with isDrawing := true } :=
      (handleDraw_filled { s with isDrawing := true } x y hf2).2 htool
    refine ⟨hsame, ?_, ?_, ?_⟩
    · rw [hdown]
    · simp only [handle]
      split
      · rw [hsame]
      · rfl
    · rw [hdown]
      unfold LatchInv at hI
      rw [if_pos hf2] at hI
      exact hI

theorem hasFilled_latch_witness :
    (0 < (handle (construct fun _ => none) (.selectTool .fill)).pixelSize)
      ∧ (handleDraw (handle (construct fun _ => none) (.selectTool .fill)) 40 70).hasFilled
          = true := by
  have hx : ⌊(40 : ℚ) /
      ((handle (construct fun _ => none) (.selectTool .fill)).pixelSize : ℚ)⌋ = 1 := by
    rw [Int.floor_eq_iff]
    simp only [handle, construct, setupCanvas]
    norm_num
  have hy : ⌊(70 : ℚ) /
      ((handle (construct fun _ => none) (.selectTool .fill)).pixelSize : ℚ)⌋ = 2 := by
    rw [Int.floor_eq_iff]
    simp only [handle, construct, setupCanvas]
    norm_num
  exact ⟨by decide,
    (hasFilled_latch.1 (handle (construct fun _ => none) (.selectTool .fill)) 40 70
      (by decide) rfl (by rw [hx, hy]; decide)).1⟩

end PixelArtEditor
